import Mathlib

/-
Verification development for the EMA + ADX scanner (ema_scanner.py).

The price columns are modelled as exact rationals; float cells that can be
NaN or infinite (the results of `shift(1)` and of divisions) are modelled by
the type `PVal` below, with IEEE-754 comparison semantics (every comparison
with NaN is false).  The pandas `Series.ewm(...).mean()` operator is modelled
by `ewmMean`, a direct transcription of pandas' online algorithm (state =
current weighted value and accumulated old weight), covering both
`adjust=True` and `adjust=False` and the default `ignore_na=False`.
-/

/-- Model of a float cell: a rational number, NaN, or a signed infinity. -/
inductive PVal where
  | num : ℚ → PVal
  | nan : PVal
  | inf : PVal
  | ninf : PVal
deriving DecidableEq, Repr

namespace PVal

/-- IEEE negation. -/
def neg : PVal → PVal
  | num a => num (-a)
  | nan => nan
  | inf => ninf
  | ninf => inf

/-- IEEE addition (inf + (-inf) = NaN). -/
def add : PVal → PVal → PVal
  | num a, num b => num (a + b)
  | nan, _ => nan
  | _, nan => nan
  | inf, ninf => nan
  | ninf, inf => nan
  | inf, _ => inf
  | _, inf => inf
  | ninf, _ => ninf
  | _, ninf => ninf

/-- IEEE subtraction. -/
def sub (x y : PVal) : PVal := add x (neg y)

/-- Multiplication by a rational scalar (the scalars appearing in the code
are the constant 100 and the positive ewm weights). -/
def mulc (c : ℚ) : PVal → PVal
  | num a => num (c * a)
  | nan => nan
  | inf => if 0 < c then inf else if c < 0 then ninf else nan
  | ninf => if 0 < c then ninf else if c < 0 then inf else nan

/-- IEEE absolute value. -/
def abs : PVal → PVal
  | num a => num |a|
  | nan => nan
  | inf => inf
  | ninf => inf

/-- IEEE division; a nonzero numerator over (positive) zero gives a signed
infinity, 0/0 and inf/inf give NaN. -/
def div : PVal → PVal → PVal
  | nan, _ => nan
  | _, nan => nan
  | num a, num b =>
      if b = 0 then (if 0 < a then inf else if a < 0 then ninf else nan)
      else num (a / b)
  | num _, inf => num 0
  | num _, ninf => num 0
  | inf, num b => if b < 0 then ninf else inf
  | ninf, num b => if b < 0 then inf else ninf
  | inf, _ => nan
  | ninf, _ => nan

/-- IEEE strict less-than: false whenever NaN is involved. -/
def ltB : PVal → PVal → Bool
  | nan, _ => false
  | _, nan => false
  | num a, num b => decide (a < b)
  | num _, inf => true
  | num _, ninf => false
  | inf, _ => false
  | ninf, ninf => false
  | ninf, _ => true

/-- IEEE less-or-equal: false whenever NaN is involved. -/
def leB : PVal → PVal → Bool
  | nan, _ => false
  | _, nan => false
  | num a, num b => decide (a ≤ b)
  | num _, inf => true
  | num _, ninf => false
  | inf, inf => true
  | inf, _ => false
  | ninf, _ => true

/-- IEEE strict greater-than. -/
def gtB (x y : PVal) : Bool := ltB y x

/-- IEEE greater-or-equal. -/
def geB (x y : PVal) : Bool := leB y x

/-- Binary maximum that skips NaN, as pandas `DataFrame.max(axis=1)`
(default `skipna=True`) does. -/
def maxSk : PVal → PVal → PVal
  | nan, y => y
  | x, nan => x
  | x, y => if leB x y then y else x

end PVal

/-- State of pandas' online ewm computation: the current weighted value and
the accumulated weight of the history. -/
structure EwmSt where
  w : PVal
  oldWt : ℚ
deriving DecidableEq, Repr

/-- One step of pandas' ewm-mean online algorithm (`ignore_na=False`):
while no observation has been seen the state is NaN and each new valid value
seeds it; otherwise the old weight decays by (1-alpha) every period, a valid
new value is averaged in with weight 1 (`adjust=True`) or alpha
(`adjust=False`), and the accumulated weight is updated (for
`adjust=False` it renormalizes to 1 after each valid observation). -/
def ewmStep (alpha : ℚ) (adjust : Bool) (st : EwmSt) (cur : PVal) : EwmSt :=
  match st.w with
  | PVal.nan => if cur = PVal.nan then st else { w := cur, oldWt := st.oldWt }
  | w0 =>
      let owt := st.oldWt * (1 - alpha)
      if cur = PVal.nan then { w := w0, oldWt := owt }
      else
        let nwt : ℚ := if adjust then 1 else alpha
        { w := PVal.div (PVal.add (PVal.mulc owt w0) (PVal.mulc nwt cur))
                 (PVal.num (owt + nwt)),
          oldWt := if adjust then owt + nwt else 1 }

/-- Tail of the ewm output stream from a given state. -/
def ewmGo (alpha : ℚ) (adjust : Bool) (st : EwmSt) : List PVal → List PVal
  | [] => []
  | x :: xs =>
      let st2 := ewmStep alpha adjust st x
      st2.w :: ewmGo alpha adjust st2 xs

/-- `Series.ewm(alpha, adjust).mean()`: the first output is the first cell,
the rest is produced by the online recursion. -/
def ewmMean (alpha : ℚ) (adjust : Bool) : List PVal → List PVal
  | [] => []
  | x :: xs => x :: ewmGo alpha adjust { w := x, oldWt := 1 } xs

/-- One OHLC row of the downloaded price history (exact rationals). -/
structure Bar where
  high : ℚ
  low : ℚ
  close : ℚ
deriving DecidableEq, Repr

/-- `df["High"] - df["High"].shift(1)`: NaN on the first row, then the
difference of consecutive highs. -/
def upMoveGo (prev : Bar) : List Bar → List PVal
  | [] => []
  | c :: cs => PVal.sub (PVal.num c.high) (PVal.num prev.high) :: upMoveGo c cs

def upMoveCol : List Bar → List PVal
  | [] => []
  | b :: bs => PVal.sub (PVal.num b.high) PVal.nan :: upMoveGo b bs

/-- `df["Low"].shift(1) - df["Low"]`. -/
def downMoveGo (prev : Bar) : List Bar → List PVal
  | [] => []
  | c :: cs => PVal.sub (PVal.num prev.low) (PVal.num c.low) :: downMoveGo c cs

def downMoveCol : List Bar → List PVal
  | [] => []
  | b :: bs => PVal.sub PVal.nan (PVal.num b.low) :: downMoveGo b bs

/-- `df["+DM"] = 0.0; df.loc[(UpMove > DownMove) & (UpMove > 0), "+DM"] = UpMove`. -/
def pdmCell (u d : PVal) : PVal :=
  if PVal.gtB u d && PVal.gtB u (PVal.num 0) then u else PVal.num 0

/-- `df["-DM"] = 0.0; df.loc[(DownMove > UpMove) & (DownMove > 0), "-DM"] = DownMove`. -/
def mdmCell (u d : PVal) : PVal :=
  if PVal.gtB d u && PVal.gtB d (PVal.num 0) then d else PVal.num 0

/-- One row of `pd.concat([High-Low, (High-Close.shift(1)).abs(),
(Low-Close.shift(1)).abs()], axis=1).max(axis=1)`; the row-wise max skips NaN. -/
def trCell (h l : ℚ) (cprev : PVal) : PVal :=
  PVal.maxSk
    (PVal.maxSk (PVal.sub (PVal.num h) (PVal.num l))
      (PVal.abs (PVal.sub (PVal.num h) cprev)))
    (PVal.abs (PVal.sub (PVal.num l) cprev))

def trGo (prev : Bar) : List Bar → List PVal
  | [] => []
  | c :: cs => trCell c.high c.low (PVal.num prev.close) :: trGo c cs

def trCol : List Bar → List PVal
  | [] => []
  | b :: bs => trCell b.high b.low PVal.nan :: trGo b bs

/-- `100 * (DM14 / TR14)` (one cell of `+DI14` or `-DI14`). -/
def diCell (dm14 tr14 : PVal) : PVal := PVal.mulc 100 (PVal.div dm14 tr14)

/-- `100 * abs(+DI14 - -DI14) / (+DI14 + -DI14)` (one cell of `DX`). -/
def dxCell (p m : PVal) : PVal :=
  PVal.div (PVal.mulc 100 (PVal.abs (PVal.sub p m))) (PVal.add p m)

/-- All columns added by `calculate_indicators`. -/
structure Indicators where
  closes : List ℚ
  fastEMA : List PVal
  slowEMA : List PVal
  upMove : List PVal
  downMove : List PVal
  pDM : List PVal
  mDM : List PVal
  tr : List PVal
  tr14 : List PVal
  pDM14 : List PVal
  mDM14 : List PVal
  pDI : List PVal
  mDI : List PVal
  dx : List PVal
  adx : List PVal

/-- `calculate_indicators(df, fast, slow)`.  Note that `TR14` uses
`ewm(alpha=1/14, adjust=False)` while `+DM14`, `-DM14` and `ADX` use
`ewm(alpha=1/14)` whose default is `adjust=True`. -/
def calculate_indicators (bars : List Bar) (fast slow : ℕ) : Indicators :=
  let closes := bars.map Bar.close
  let fastEMA := ewmMean (2 / ((fast : ℚ) + 1)) false (closes.map PVal.num)
  let slowEMA := ewmMean (2 / ((slow : ℚ) + 1)) false (closes.map PVal.num)
  let upMove := upMoveCol bars
  let downMove := downMoveCol bars
  let pDM := List.zipWith pdmCell upMove downMove
  let mDM := List.zipWith mdmCell upMove downMove
  let tr := trCol bars
  let tr14 := ewmMean (1 / 14) false tr
  let pDM14 := ewmMean (1 / 14) true pDM
  let mDM14 := ewmMean (1 / 14) true mDM
  let pDI := List.zipWith diCell pDM14 tr14
  let mDI := List.zipWith diCell mDM14 tr14
  let dx := List.zipWith dxCell pDI mDI
  let adx := ewmMean (1 / 14) true dx
  { closes := closes, fastEMA := fastEMA, slowEMA := slowEMA,
    upMove := upMove, downMove := downMove, pDM := pDM, mDM := mDM,
    tr := tr, tr14 := tr14, pDM14 := pDM14, mDM14 := mDM14,
    pDI := pDI, mDI := mDI, dx := dx, adx := adx }

/-- The fields of an indicator row that the signal detector reads (plus the
DX cell, to speak about undefined values inside a row). -/
structure IndRow where
  close : ℚ
  fastEMA : PVal
  slowEMA : PVal
  dx : PVal
  adx : PVal
deriving DecidableEq, Repr

/-- Default row used with `List.getD` (never observed at in-range indices). -/
def dRow : IndRow := { close := 0, fastEMA := PVal.nan, slowEMA := PVal.nan,
                       dx := PVal.nan, adx := PVal.nan }

/-- Row-wise zip of the frame columns. -/
def rowsZip : List ℚ → List PVal → List PVal → List PVal → List PVal → List IndRow
  | c :: cs, f :: fs, sl :: sls, d :: ds, a :: adxs =>
      { close := c, fastEMA := f, slowEMA := sl, dx := d, adx := a } ::
        rowsZip cs fs sls ds adxs
  | _, _, _, _, _ => []

/-- The annotated frame seen as a sequence of rows. -/
def rowsOf (ind : Indicators) : List IndRow :=
  rowsZip ind.closes ind.fastEMA ind.slowEMA ind.dx ind.adx

/-- The data carried by a fired signal (close price and ADX of `today`). -/
structure Event where
  close : ℚ
  adx : PVal
deriving DecidableEq, Repr

/-- The signal detector of `main`: `today = data.iloc[-1]`,
`yesterday = data.iloc[-2]`, `bullish_cross = yesterday.Fast_EMA <=
yesterday.Slow_EMA and today.Fast_EMA > today.Slow_EMA`,
`strong_trend = today.ADX >= threshold`; all comparisons are float
comparisons (false on NaN). -/
def detect (rows : List IndRow) (thr : ℚ) : Option Event :=
  match rows.dropLast.getLast?, rows.getLast? with
  | some yesterday, some today =>
      if PVal.leB yesterday.fastEMA yesterday.slowEMA
          && PVal.gtB today.fastEMA today.slowEMA
          && PVal.geB today.adx (PVal.num thr)
      then some { close := today.close, adx := today.adx }
      else none
  | _, _ => none

/-- A parsed row of the target list. -/
structure Target where
  ticker : String
  fast : ℕ
  slow : ℕ
deriving DecidableEq, Repr

/-- One line appended to `daily_signals`. -/
structure SigLine where
  ticker : String
  fast : ℕ
  slow : ℕ
  adx : PVal
deriving DecidableEq, Repr

/-- The body of the scan loop for one target, inside the `try` block:
a fetch failure is caught (producing no signal); short histories are
skipped; on a detected signal the Discord webhook is posted BEFORE
`daily_signals.append`, so a webhook error (caught by the same `except`)
loses that target's line. -/
def processTarget (fetchResult : Except String (List Bar))
    (discordResult : Except String Unit) (t : Target) (thr : ℚ) :
    Option SigLine :=
  match fetchResult with
  | Except.error _ => none
  | Except.ok data =>
      if data.length < t.slow + 5 then none
      else
        match detect (rowsOf (calculate_indicators data t.fast t.slow)) thr with
        | none => none
        | some e =>
            match discordResult with
            | Except.ok _ => some { ticker := t.ticker, fast := t.fast,
                                    slow := t.slow, adx := e.adx }
            | Except.error _ => none

/-- The scan over already-parsed targets: per-target failures are absorbed,
signals are collected in target-list order. -/
def runScan (targets : List Target) (fetch : Target → Except String (List Bar))
    (discord : Target → Except String Unit) (thr : ℚ) : List SigLine :=
  targets.filterMap (fun t => processTarget (fetch t) (discord t) t thr)

/-- A raw row of the target CSV; `none` models a `Fast`/`Slow` cell on which
`int(...)` raises `ValueError`. -/
structure RawRow where
  ticker : String
  fastVal : Option ℕ
  slowVal : Option ℕ
deriving DecidableEq, Repr

/-- The rows whose periods parse, as targets, in order. -/
def parsedTargets (rows : List RawRow) : List Target :=
  rows.filterMap (fun r =>
    match r.fastVal, r.slowVal with
    | some f, some s => some { ticker := r.ticker, fast := f, slow := s }
    | _, _ => none)

/-- The scan loop over raw rows.  `int(row["Fast"])` and `int(row["Slow"])`
are executed BEFORE the `try` block, so a parse failure escapes the loop and
aborts the whole run (`Except.error`). -/
def scanRows (fetch : Target → Except String (List Bar))
    (discord : Target → Except String Unit) (thr : ℚ) :
    List RawRow → Except String (List SigLine)
  | [] => Except.ok []
  | r :: rs =>
      match r.fastVal, r.slowVal with
      | some f, some s =>
          let t : Target := { ticker := r.ticker, fast := f, slow := s }
          match scanRows fetch discord thr rs with
          | Except.ok sigs =>
              Except.ok ((processTarget (fetch t) (discord t) t thr).toList ++ sigs)
          | Except.error e => Except.error e
      | _, _ => Except.error "ValueError"

/-- State of the target-list file. -/
inductive FileState where
  | missing : FileState
  | unreadable : FileState
  | rows : List RawRow → FileState

/-- Outcome of one run of `main()`: a normal return (process exit code 0)
with the collected signal lines, or an uncaught exception (non-zero exit). -/
inductive RunOutcome where
  | exitedZero : List SigLine → RunOutcome
  | raised : String → RunOutcome
deriving DecidableEq, Repr

/-- `main()`: a missing `best_ema_results.csv` prints a message and RETURNS
(exit code 0); `pd.read_csv` on an unreadable file raises uncaught; otherwise
the scan loop runs.  The final e-mail summary is sent by `send_email_alert`,
whose internal `try`/`except` swallows any error, so the outcome does not
depend on the e-mail transport result. -/
def mainModel (file : FileState) (fetch : Target → Except String (List Bar))
    (discord : Target → Except String Unit)
    (_email : Except String Unit) (thr : ℚ) : RunOutcome :=
  match file with
  | FileState.missing => RunOutcome.exitedZero []
  | FileState.unreadable => RunOutcome.raised "read error"
  | FileState.rows rs =>
      match scanRows fetch discord thr rs with
      | Except.ok sigs => RunOutcome.exitedZero sigs
      | Except.error e => RunOutcome.raised e

/-- `send_email_alert` (src lines 52-69), its transport effects elided: the
entire body sits inside a `try`/`except` whose handler only prints the
error, so the function returns normally whatever the SMTP transport did -
its observable result does not depend on the transport outcome. -/
def sendEmailModel (result : Except String Unit) : Unit :=
  match result with
  | Except.ok _ => ()
  | Except.error _ => ()

/-
Specification-side definitions.  These transcribe the formulas of the
natural-language specification and are compared with the embedding above.
-/

/-- Spec formula: recursive exponential smoothing,
`s[i] = s[i-1] + alpha * (x[i] - s[i-1])`, from a given seed. -/
def recGo (alpha : ℚ) (s : ℚ) : List ℚ → List ℚ
  | [] => []
  | x :: xs =>
      let s2 := s + alpha * (x - s)
      s2 :: recGo alpha s2 xs

/-- Spec formula: recursive smoothing seeded at the series' first value. -/
def recSmooth (alpha : ℚ) : List ℚ → List ℚ
  | [] => []
  | x :: xs => x :: recGo alpha x xs

/-- Adjusted (normalized-weights) exponential mean, skipping undefined
entries: the output at each position is the ratio N/D of the
(1-alpha)-discounted sum of the defined observations to the discounted sum
of their weights (equivalently, weights (1-alpha)^(t-j) by absolute
position j); it is undefined while D = 0, i.e. before the first defined
observation. -/
def adjSmoothGo (alpha : ℚ) (n d : ℚ) : List PVal → List PVal
  | [] => []
  | PVal.num q :: xs =>
      let n2 := (1 - alpha) * n + q
      let d2 := (1 - alpha) * d + 1
      PVal.num (n2 / d2) :: adjSmoothGo alpha n2 d2 xs
  | _ :: xs =>
      let n2 := (1 - alpha) * n
      let d2 := (1 - alpha) * d
      (if d2 = 0 then PVal.nan else PVal.num (n2 / d2)) :: adjSmoothGo alpha n2 d2 xs

def adjSmooth (alpha : ℚ) (xs : List PVal) : List PVal := adjSmoothGo alpha 0 0 xs

/-- Rational-level true range: `TR[0] = high[0] - low[0]` (the two gap terms
are undefined on the first row), `TR[i] = max(high-low, |high-prevclose|,
|low-prevclose|)` afterwards. -/
def trQgo (prev : Bar) : List Bar → List ℚ
  | [] => []
  | c :: cs =>
      max (max (c.high - c.low) |c.high - prev.close|) |c.low - prev.close| ::
        trQgo c cs

def trQ : List Bar → List ℚ
  | [] => []
  | b :: bs => (b.high - b.low) :: trQgo b bs

/-- Rational-level `+DM`: `upMove = high[i] - high[i-1]`,
`downMove = low[i-1] - low[i]`, and `+DM = upMove` when
`upMove > downMove` and `upMove > 0`, else 0 (0 on the first row). -/
def pdmQgo (prev : Bar) : List Bar → List ℚ
  | [] => []
  | c :: cs =>
      (if prev.low - c.low < c.high - prev.high ∧ 0 < c.high - prev.high
       then c.high - prev.high else 0) :: pdmQgo c cs

def pdmQ : List Bar → List ℚ
  | [] => []
  | b :: bs => 0 :: pdmQgo b bs

/-- Rational-level `-DM`. -/
def mdmQgo (prev : Bar) : List Bar → List ℚ
  | [] => []
  | c :: cs =>
      (if c.high - prev.high < prev.low - c.low ∧ 0 < prev.low - c.low
       then prev.low - c.low else 0) :: mdmQgo c cs

def mdmQ : List Bar → List ℚ
  | [] => []
  | b :: bs => 0 :: mdmQgo b bs

/-- A well-formed OHLC bar: the close lies between the low and the high. -/
def validBar (b : Bar) : Prop := b.low ≤ b.close ∧ b.close ≤ b.high

instance (b : Bar) : Decidable (validBar b) := by
  unfold validBar; infer_instance

/-- A float cell that is a number or NaN (never an infinity). -/
def numOrNan (v : PVal) : Prop := v = PVal.nan ∨ ∃ q, v = PVal.num q

/-
Computation lemmas for the float model.
-/

@[simp] lemma PVal.neg_num (a : ℚ) : PVal.neg (PVal.num a) = PVal.num (-a) := rfl

@[simp] lemma PVal.add_num (a b : ℚ) :
    PVal.add (PVal.num a) (PVal.num b) = PVal.num (a + b) := rfl

@[simp] lemma PVal.sub_num (a b : ℚ) :
    PVal.sub (PVal.num a) (PVal.num b) = PVal.num (a - b) := by
  simp [PVal.sub, sub_eq_add_neg]

@[simp] lemma PVal.sub_num_nan (a : ℚ) :
    PVal.sub (PVal.num a) PVal.nan = PVal.nan := rfl

@[simp] lemma PVal.sub_nan_num (a : ℚ) :
    PVal.sub PVal.nan (PVal.num a) = PVal.nan := rfl

@[simp] lemma PVal.mulc_num (c a : ℚ) :
    PVal.mulc c (PVal.num a) = PVal.num (c * a) := rfl

@[simp] lemma PVal.mulc_nan (c : ℚ) : PVal.mulc c PVal.nan = PVal.nan := rfl

@[simp] lemma PVal.abs_num (a : ℚ) : PVal.abs (PVal.num a) = PVal.num |a| := rfl

@[simp] lemma PVal.abs_nan : PVal.abs PVal.nan = PVal.nan := rfl

@[simp] lemma PVal.num_eq_nan (a : ℚ) : (PVal.num a = PVal.nan) = False := by simp

@[simp] lemma PVal.nan_eq_num (a : ℚ) : (PVal.nan = PVal.num a) = False := by simp

@[simp] lemma PVal.inf_eq_nan : (PVal.inf = PVal.nan) = False := by simp

@[simp] lemma PVal.ninf_eq_nan : (PVal.ninf = PVal.nan) = False := by simp

@[simp] lemma PVal.div_nan_left (v : PVal) : PVal.div PVal.nan v = PVal.nan := by
  cases v <;> rfl

@[simp] lemma PVal.div_nan_right (v : PVal) : PVal.div v PVal.nan = PVal.nan := by
  cases v <;> rfl

lemma PVal.div_num_num (a b : ℚ) (hb : b ≠ 0) :
    PVal.div (PVal.num a) (PVal.num b) = PVal.num (a / b) := by
  simp [PVal.div, hb]

@[simp] lemma PVal.div_zero_zero : PVal.div (PVal.num 0) (PVal.num 0) = PVal.nan := by
  simp [PVal.div]

@[simp] lemma PVal.ltB_nan_left (v : PVal) : PVal.ltB PVal.nan v = false := by
  cases v <;> rfl

@[simp] lemma PVal.ltB_nan_right (v : PVal) : PVal.ltB v PVal.nan = false := by
  cases v <;> rfl

@[simp] lemma PVal.ltB_num (a b : ℚ) :
    PVal.ltB (PVal.num a) (PVal.num b) = decide (a < b) := rfl

@[simp] lemma PVal.leB_nan_left (v : PVal) : PVal.leB PVal.nan v = false := by
  cases v <;> rfl

@[simp] lemma PVal.leB_nan_right (v : PVal) : PVal.leB v PVal.nan = false := by
  cases v <;> rfl

@[simp] lemma PVal.leB_num (a b : ℚ) :
    PVal.leB (PVal.num a) (PVal.num b) = decide (a ≤ b) := rfl

@[simp] lemma PVal.maxSk_num (a b : ℚ) :
    PVal.maxSk (PVal.num a) (PVal.num b) = PVal.num (max a b) := by
  simp only [PVal.maxSk, PVal.leB_num, max_def]
  by_cases h : a ≤ b <;> simp [h]

@[simp] lemma PVal.maxSk_nan_right (v : PVal) : PVal.maxSk v PVal.nan = v := by
  cases v <;> rfl

@[simp] lemma PVal.maxSk_nan_left (v : PVal) : PVal.maxSk PVal.nan v = v := by
  cases v <;> rfl

lemma PVal.add_eq_num (p m : PVal) (c : ℚ) (h : PVal.add p m = PVal.num c) :
    ∃ a b, p = PVal.num a ∧ m = PVal.num b ∧ a + b = c := by
  cases p <;> cases m <;> simp [PVal.add] at h ⊢
  exact h

/-
The ewm operator with adjust=False on an all-number series is exactly the
recursive smoothing of the specification.
-/

lemma ewmStep_false_num (alpha s y : ℚ) :
    ewmStep alpha false { w := PVal.num s, oldWt := 1 } (PVal.num y)
      = { w := PVal.num (s + alpha * (y - s)), oldWt := 1 } := by
  have hB : (1 : ℚ) * (1 - alpha) + alpha = 1 := by ring
  simp only [ewmStep, Bool.false_eq_true, if_false, PVal.mulc_num, PVal.add_num, hB]
  rw [if_neg (by simp)]
  rw [PVal.div_num_num _ _ one_ne_zero]
  simp only [EwmSt.mk.injEq, PVal.num.injEq, and_true]
  rw [div_one]; ring

lemma ewmGo_false_num (alpha s : ℚ) (ys : List ℚ) :
    ewmGo alpha false { w := PVal.num s, oldWt := 1 } (ys.map PVal.num)
      = (recGo alpha s ys).map PVal.num := by
  induction ys generalizing s with
  | nil => rfl
  | cons y ys ih =>
      simp only [List.map_cons, ewmGo, recGo, ewmStep_false_num]
      exact congrArg _ (ih _)

lemma ewmMean_false_num (alpha : ℚ) (xs : List ℚ) :
    ewmMean alpha false (xs.map PVal.num) = (recSmooth alpha xs).map PVal.num := by
  cases xs with
  | nil => rfl
  | cons x xs =>
      simp only [List.map_cons, ewmMean, recSmooth, ewmGo_false_num]

/-
The TR, +DM and -DM columns are all-number columns, equal to their
rational-level transcriptions.
-/

lemma trCell_nan_prev (h l : ℚ) : trCell h l PVal.nan = PVal.num (h - l) := by
  simp [trCell]

lemma trCell_num_prev (h l c : ℚ) :
    trCell h l (PVal.num c) = PVal.num (max (max (h - l) |h - c|) |l - c|) := by
  simp [trCell]

lemma trGo_eq (prev : Bar) (bs : List Bar) :
    trGo prev bs = (trQgo prev bs).map PVal.num := by
  induction bs generalizing prev with
  | nil => rfl
  | cons c cs ih => simp [trGo, trQgo, trCell_num_prev, ih]

lemma trCol_eq (bars : List Bar) : trCol bars = (trQ bars).map PVal.num := by
  cases bars with
  | nil => rfl
  | cons b bs => simp [trCol, trQ, trCell_nan_prev, trGo_eq]

lemma pdmCell_num (u d : ℚ) :
    pdmCell (PVal.num u) (PVal.num d) = PVal.num (if d < u ∧ 0 < u then u else 0) := by
  by_cases h1 : d < u <;> by_cases h2 : 0 < u <;>
    simp [pdmCell, PVal.gtB, h1, h2]

lemma mdmCell_num (u d : ℚ) :
    mdmCell (PVal.num u) (PVal.num d) = PVal.num (if u < d ∧ 0 < d then d else 0) := by
  by_cases h1 : u < d <;> by_cases h2 : 0 < d <;>
    simp [mdmCell, PVal.gtB, h1, h2]

lemma pdmGo_eq (prev : Bar) (bs : List Bar) :
    List.zipWith pdmCell (upMoveGo prev bs) (downMoveGo prev bs)
      = (pdmQgo prev bs).map PVal.num := by
  induction bs generalizing prev with
  | nil => rfl
  | cons c cs ih =>
      simp [upMoveGo, downMoveGo, pdmQgo, pdmCell_num, ih]

lemma pdmCol_eq (bars : List Bar) :
    List.zipWith pdmCell (upMoveCol bars) (downMoveCol bars)
      = (pdmQ bars).map PVal.num := by
  cases bars with
  | nil => rfl
  | cons b bs =>
      simp only [upMoveCol, downMoveCol, pdmQ, List.zipWith_cons_cons,
        List.map_cons, pdmGo_eq]
      congr 1

lemma mdmGo_eq (prev : Bar) (bs : List Bar) :
    List.zipWith mdmCell (upMoveGo prev bs) (downMoveGo prev bs)
      = (mdmQgo prev bs).map PVal.num := by
  induction bs generalizing prev with
  | nil => rfl
  | cons c cs ih =>
      simp [upMoveGo, downMoveGo, mdmQgo, mdmCell_num, ih]

lemma mdmCol_eq (bars : List Bar) :
    List.zipWith mdmCell (upMoveCol bars) (downMoveCol bars)
      = (mdmQ bars).map PVal.num := by
  cases bars with
  | nil => rfl
  | cons b bs =>
      simp only [upMoveCol, downMoveCol, mdmQ, List.zipWith_cons_cons,
        List.map_cons, mdmGo_eq]
      congr 1

lemma ewmStep_true_num (alpha N D q : ℚ) (ha : 0 < 1 - alpha) (hD : 0 < D) :
    ewmStep alpha true { w := PVal.num (N / D), oldWt := D } (PVal.num q)
      = { w := PVal.num (((1 - alpha) * N + q) / ((1 - alpha) * D + 1)),
          oldWt := (1 - alpha) * D + 1 } := by
  have hDne : D ≠ 0 := ne_of_gt hD
  have hd2 : D * (1 - alpha) + 1 ≠ 0 := by positivity
  have hd3 : (1 - alpha) * D + 1 ≠ 0 := by positivity
  simp only [ewmStep, if_true]
  rw [if_neg (by simp)]
  simp only [PVal.mulc_num, PVal.add_num]
  rw [PVal.div_num_num _ _ hd2]
  simp only [EwmSt.mk.injEq, PVal.num.injEq]
  constructor
  · rw [div_eq_div_iff hd2 hd3]
    field_simp
    ring
  · ring

lemma ewmStep_true_nan (alpha N D : ℚ) :
    ewmStep alpha true { w := PVal.num (N / D), oldWt := D } PVal.nan
      = { w := PVal.num (N / D), oldWt := D * (1 - alpha) } := by
  simp [ewmStep]

lemma ewmGo_true_pos (alpha : ℚ) (ha : 0 < 1 - alpha) (N D : ℚ) (hD : 0 < D)
    (xs : List PVal) (hx : ∀ v ∈ xs, numOrNan v) :
    ewmGo alpha true { w := PVal.num (N / D), oldWt := D } xs
      = adjSmoothGo alpha N D xs := by
  induction xs generalizing N D with
  | nil => rfl
  | cons x xs ih =>
      have hxh : numOrNan x := hx x (List.mem_cons_self x xs)
      have hxt : ∀ v ∈ xs, numOrNan v := fun v hv => hx v (List.mem_cons_of_mem x hv)
      rcases hxh with hnan | ⟨q, rfl⟩
      · subst hnan
        have hD2 : (0:ℚ) < (1 - alpha) * D := mul_pos ha hD
        have hND : ((1 - alpha) * N) / ((1 - alpha) * D) = N / D :=
          mul_div_mul_left N D (ne_of_gt ha)
        simp only [ewmGo, ewmStep_true_nan]
        rw [show D * (1 - alpha) = (1 - alpha) * D from mul_comm D (1 - alpha)]
        simp only [adjSmoothGo]
        rw [if_neg (ne_of_gt hD2)]
        rw [show PVal.num (N / D) = PVal.num (((1 - alpha) * N) / ((1 - alpha) * D)) from by rw [hND]]
        exact congrArg _ (ih _ _ hD2 hxt)
      · have hD2 : (0:ℚ) < (1 - alpha) * D + 1 := by positivity
        simp only [ewmGo, ewmStep_true_num alpha N D q ha hD, adjSmoothGo]
        exact congrArg _ (ih _ _ hD2 hxt)

lemma ewmGo_true_seed (alpha : ℚ) (ha : 0 < 1 - alpha)
    (xs : List PVal) (hx : ∀ v ∈ xs, numOrNan v) :
    ewmGo alpha true { w := PVal.nan, oldWt := 1 } xs
      = adjSmoothGo alpha 0 0 xs := by
  induction xs with
  | nil => rfl
  | cons x xs ih =>
      have hxh : numOrNan x := hx x (List.mem_cons_self x xs)
      have hxt : ∀ v ∈ xs, numOrNan v := fun v hv => hx v (List.mem_cons_of_mem x hv)
      rcases hxh with hnan | ⟨q, rfl⟩
      · subst hnan
        simp only [ewmGo, ewmStep, if_pos rfl, adjSmoothGo, mul_zero, if_pos rfl]
        exact congrArg _ (ih hxt)
      · simp only [ewmGo, ewmStep, adjSmoothGo, mul_zero, zero_add]
        rw [if_neg (by simp)]
        rw [show PVal.num q = PVal.num (q / 1) from by rw [div_one]]
        exact congrArg _ (ewmGo_true_pos alpha ha q 1 one_pos xs hxt)

lemma ewmMean_true_adj (alpha : ℚ) (ha : 0 < 1 - alpha)
    (xs : List PVal) (hx : ∀ v ∈ xs, numOrNan v) :
    ewmMean alpha true xs = adjSmooth alpha xs := by
  cases xs with
  | nil => rfl
  | cons x xs =>
      have hxh : numOrNan x := hx x (List.mem_cons_self x xs)
      have hxt : ∀ v ∈ xs, numOrNan v := fun v hv => hx v (List.mem_cons_of_mem x hv)
      rcases hxh with hnan | ⟨q, rfl⟩
      · subst hnan
        simp only [ewmMean, adjSmooth, adjSmoothGo, mul_zero, if_pos rfl]
        exact congrArg _ (ewmGo_true_seed alpha ha xs hxt)
      · simp only [ewmMean, adjSmooth, adjSmoothGo, mul_zero, zero_add]
        rw [show PVal.num q = PVal.num (q / 1) from by rw [div_one]]
        exact congrArg _ (ewmGo_true_pos alpha ha q 1 one_pos xs hxt)

/-
Lengths of the derived columns.
-/

lemma length_ewmGo (alpha : ℚ) (adj : Bool) (st : EwmSt) (xs : List PVal) :
    (ewmGo alpha adj st xs).length = xs.length := by
  induction xs generalizing st with
  | nil => rfl
  | cons x xs ih => simp [ewmGo, ih]

lemma length_ewmMean (alpha : ℚ) (adj : Bool) (xs : List PVal) :
    (ewmMean alpha adj xs).length = xs.length := by
  cases xs with
  | nil => rfl
  | cons x xs => simp [ewmMean, length_ewmGo]

lemma length_upMoveGo (prev : Bar) (bs : List Bar) :
    (upMoveGo prev bs).length = bs.length := by
  induction bs generalizing prev with
  | nil => rfl
  | cons c cs ih => simp [upMoveGo, ih]

lemma length_upMoveCol (bars : List Bar) : (upMoveCol bars).length = bars.length := by
  cases bars with
  | nil => rfl
  | cons b bs => simp [upMoveCol, length_upMoveGo]

lemma length_downMoveGo (prev : Bar) (bs : List Bar) :
    (downMoveGo prev bs).length = bs.length := by
  induction bs generalizing prev with
  | nil => rfl
  | cons c cs ih => simp [downMoveGo, ih]

lemma length_downMoveCol (bars : List Bar) :
    (downMoveCol bars).length = bars.length := by
  cases bars with
  | nil => rfl
  | cons b bs => simp [downMoveCol, length_downMoveGo]

lemma length_trQgo (prev : Bar) (bs : List Bar) :
    (trQgo prev bs).length = bs.length := by
  induction bs generalizing prev with
  | nil => rfl
  | cons c cs ih => simp [trQgo, ih]

lemma length_trQ (bars : List Bar) : (trQ bars).length = bars.length := by
  cases bars with
  | nil => rfl
  | cons b bs => simp [trQ, length_trQgo]

lemma length_pdmQgo (prev : Bar) (bs : List Bar) :
    (pdmQgo prev bs).length = bs.length := by
  induction bs generalizing prev with
  | nil => rfl
  | cons c cs ih => simp [pdmQgo, ih]

lemma length_pdmQ (bars : List Bar) : (pdmQ bars).length = bars.length := by
  cases bars with
  | nil => rfl
  | cons b bs => simp [pdmQ, length_pdmQgo]

lemma length_mdmQgo (prev : Bar) (bs : List Bar) :
    (mdmQgo prev bs).length = bs.length := by
  induction bs generalizing prev with
  | nil => rfl
  | cons c cs ih => simp [mdmQgo, ih]

lemma length_mdmQ (bars : List Bar) : (mdmQ bars).length = bars.length := by
  cases bars with
  | nil => rfl
  | cons b bs => simp [mdmQ, length_mdmQgo]

lemma length_recGo (alpha s : ℚ) (xs : List ℚ) :
    (recGo alpha s xs).length = xs.length := by
  induction xs generalizing s with
  | nil => rfl
  | cons x xs ih => simp [recGo, ih]

lemma length_recSmooth (alpha : ℚ) (xs : List ℚ) :
    (recSmooth alpha xs).length = xs.length := by
  cases xs with
  | nil => rfl
  | cons x xs => simp [recSmooth, length_recGo]

lemma length_adjSmoothGo (alpha n d : ℚ) (xs : List PVal) :
    (adjSmoothGo alpha n d xs).length = xs.length := by
  induction xs generalizing n d with
  | nil => rfl
  | cons x xs ih =>
      cases x <;> simp [adjSmoothGo, ih]

/-
Projections of `calculate_indicators` (definitional).
-/

lemma calc_closes (bars : List Bar) (f s : ℕ) :
    (calculate_indicators bars f s).closes = bars.map Bar.close := rfl

lemma calc_fastEMA (bars : List Bar) (f s : ℕ) :
    (calculate_indicators bars f s).fastEMA
      = ewmMean (2 / ((f : ℚ) + 1)) false ((bars.map Bar.close).map PVal.num) := rfl

lemma calc_slowEMA (bars : List Bar) (f s : ℕ) :
    (calculate_indicators bars f s).slowEMA
      = ewmMean (2 / ((s : ℚ) + 1)) false ((bars.map Bar.close).map PVal.num) := rfl

lemma calc_pDM (bars : List Bar) (f s : ℕ) :
    (calculate_indicators bars f s).pDM
      = List.zipWith pdmCell (upMoveCol bars) (downMoveCol bars) := rfl

lemma calc_mDM (bars : List Bar) (f s : ℕ) :
    (calculate_indicators bars f s).mDM
      = List.zipWith mdmCell (upMoveCol bars) (downMoveCol bars) := rfl

lemma calc_tr (bars : List Bar) (f s : ℕ) :
    (calculate_indicators bars f s).tr = trCol bars := rfl

lemma calc_tr14 (bars : List Bar) (f s : ℕ) :
    (calculate_indicators bars f s).tr14 = ewmMean (1 / 14) false (trCol bars) := rfl

lemma calc_pDM14 (bars : List Bar) (f s : ℕ) :
    (calculate_indicators bars f s).pDM14
      = ewmMean (1 / 14) true ((calculate_indicators bars f s).pDM) := rfl

lemma calc_mDM14 (bars : List Bar) (f s : ℕ) :
    (calculate_indicators bars f s).mDM14
      = ewmMean (1 / 14) true ((calculate_indicators bars f s).mDM) := rfl

lemma calc_pDI (bars : List Bar) (f s : ℕ) :
    (calculate_indicators bars f s).pDI
      = List.zipWith diCell ((calculate_indicators bars f s).pDM14)
          ((calculate_indicators bars f s).tr14) := rfl

lemma calc_mDI (bars : List Bar) (f s : ℕ) :
    (calculate_indicators bars f s).mDI
      = List.zipWith diCell ((calculate_indicators bars f s).mDM14)
          ((calculate_indicators bars f s).tr14) := rfl

lemma calc_dx (bars : List Bar) (f s : ℕ) :
    (calculate_indicators bars f s).dx
      = List.zipWith dxCell ((calculate_indicators bars f s).pDI)
          ((calculate_indicators bars f s).mDI) := rfl

lemma calc_adx (bars : List Bar) (f s : ℕ) :
    (calculate_indicators bars f s).adx
      = ewmMean (1 / 14) true ((calculate_indicators bars f s).dx) := rfl

/-
Nonnegativity and shape of the column entries.
-/

lemma mem_zipWith {α β γ : Type} {f : α → β → γ} :
    ∀ {as : List α} {bs : List β} {c : γ}, c ∈ List.zipWith f as bs →
      ∃ a b, a ∈ as ∧ b ∈ bs ∧ c = f a b := by
  intro as
  induction as with
  | nil => intro bs c h; simp at h
  | cons a as ih =>
      intro bs c h
      cases bs with
      | nil => simp at h
      | cons b bs =>
          rw [List.zipWith_cons_cons] at h
          rcases List.mem_cons.mp h with h1 | h2
          · exact ⟨a, b, List.mem_cons_self a as, List.mem_cons_self b bs, h1⟩
          · rcases ih h2 with ⟨x, y, hx, hy, hc⟩
            exact ⟨x, y, List.mem_cons_of_mem _ hx, List.mem_cons_of_mem _ hy, hc⟩

lemma numOrNan_map_num (qs : List ℚ) : ∀ v ∈ qs.map PVal.num, numOrNan v := by
  intro v hv
  rcases List.mem_map.mp hv with ⟨q, _, rfl⟩
  exact Or.inr ⟨q, rfl⟩

lemma trQgo_nonneg (prev : Bar) (bs : List Bar) :
    ∀ q ∈ trQgo prev bs, 0 ≤ q := by
  induction bs generalizing prev with
  | nil => intro q h; simp [trQgo] at h
  | cons c cs ih =>
      intro q h
      rw [trQgo, List.mem_cons] at h
      rcases h with h | h
      · subst h
        exact le_trans (abs_nonneg _) (le_max_right _ _)
      · exact ih c q h

lemma trQ_nonneg (bars : List Bar) (hLH : ∀ b ∈ bars, b.low ≤ b.high) :
    ∀ q ∈ trQ bars, 0 ≤ q := by
  cases bars with
  | nil => intro q h; simp [trQ] at h
  | cons b bs =>
      intro q h
      rw [trQ, List.mem_cons] at h
      rcases h with h | h
      · subst h
        have hb := hLH b (List.mem_cons_self b bs)
        linarith
      · exact trQgo_nonneg b bs q h

lemma pdmQgo_nonneg (prev : Bar) (bs : List Bar) :
    ∀ q ∈ pdmQgo prev bs, 0 ≤ q := by
  induction bs generalizing prev with
  | nil => intro q h; simp [pdmQgo] at h
  | cons c cs ih =>
      intro q h
      rw [pdmQgo, List.mem_cons] at h
      rcases h with h | h
      · subst h
        split
        · next hc => exact le_of_lt hc.2
        · exact le_refl 0
      · exact ih c q h

lemma pdmQ_nonneg (bars : List Bar) : ∀ q ∈ pdmQ bars, 0 ≤ q := by
  cases bars with
  | nil => intro q h; simp [pdmQ] at h
  | cons b bs =>
      intro q h
      rw [pdmQ, List.mem_cons] at h
      rcases h with h | h
      · subst h; exact le_refl 0
      · exact pdmQgo_nonneg b bs q h

lemma mdmQgo_nonneg (prev : Bar) (bs : List Bar) :
    ∀ q ∈ mdmQgo prev bs, 0 ≤ q := by
  induction bs generalizing prev with
  | nil => intro q h; simp [mdmQgo] at h
  | cons c cs ih =>
      intro q h
      rw [mdmQgo, List.mem_cons] at h
      rcases h with h | h
      · subst h
        split
        · next hc => exact le_of_lt hc.2
        · exact le_refl 0
      · exact ih c q h

lemma mdmQ_nonneg (bars : List Bar) : ∀ q ∈ mdmQ bars, 0 ≤ q := by
  cases bars with
  | nil => intro q h; simp [mdmQ] at h
  | cons b bs =>
      intro q h
      rw [mdmQ, List.mem_cons] at h
      rcases h with h | h
      · subst h; exact le_refl 0
      · exact mdmQgo_nonneg b bs q h

lemma recGo_nonneg (alpha : ℚ) (h0 : 0 ≤ alpha) (h1 : alpha ≤ 1) :
    ∀ (xs : List ℚ) (s : ℚ), 0 ≤ s → (∀ q ∈ xs, 0 ≤ q) →
      ∀ r ∈ recGo alpha s xs, 0 ≤ r := by
  intro xs
  induction xs with
  | nil => intro s _ _ r h; simp [recGo] at h
  | cons x xs ih =>
      intro s hs hxs r hr
      have hx : 0 ≤ x := hxs x (List.mem_cons_self x xs)
      have hs2 : 0 ≤ s + alpha * (x - s) := by nlinarith
      simp only [recGo, List.mem_cons] at hr
      rcases hr with hr | hr
      · exact hr ▸ hs2
      · exact ih _ hs2 (fun q hq => hxs q (List.mem_cons_of_mem x hq)) r hr

lemma recSmooth_nonneg (alpha : ℚ) (h0 : 0 ≤ alpha) (h1 : alpha ≤ 1)
    (xs : List ℚ) (hxs : ∀ q ∈ xs, 0 ≤ q) :
    ∀ r ∈ recSmooth alpha xs, 0 ≤ r := by
  cases xs with
  | nil => intro r h; simp [recSmooth] at h
  | cons x xs =>
      intro r hr
      rw [recSmooth, List.mem_cons] at hr
      rcases hr with hr | hr
      · exact hr ▸ hxs x (List.mem_cons_self x xs)
      · exact recGo_nonneg alpha h0 h1 xs x (hxs x (List.mem_cons_self x xs))
          (fun q hq => hxs q (List.mem_cons_of_mem x hq)) r hr

lemma adjSmoothGo_num_nonneg (alpha : ℚ) (ha : 0 < 1 - alpha) :
    ∀ (qs : List ℚ) (n d : ℚ), 0 ≤ n → 0 ≤ d → (∀ q ∈ qs, 0 ≤ q) →
      ∀ v ∈ adjSmoothGo alpha n d (qs.map PVal.num), ∃ a, v = PVal.num a ∧ 0 ≤ a := by
  intro qs
  induction qs with
  | nil => intro n d _ _ _ v h; simp [adjSmoothGo] at h
  | cons q qs ih =>
      intro n d hn hd hqs v hv
      have hq : 0 ≤ q := hqs q (List.mem_cons_self q qs)
      have hn2 : 0 ≤ (1 - alpha) * n + q := by nlinarith
      have hd2 : 0 < (1 - alpha) * d + 1 := by nlinarith
      simp only [List.map_cons, adjSmoothGo, List.mem_cons] at hv
      rcases hv with hv | hv
      · exact ⟨_, hv, div_nonneg hn2 (le_of_lt hd2)⟩
      · exact ih _ _ hn2 (le_of_lt hd2)
          (fun r hr => hqs r (List.mem_cons_of_mem q hr)) v hv

/-
The smoothed columns at the rational level.
-/

lemma tr14_eq (bars : List Bar) (f s : ℕ) :
    (calculate_indicators bars f s).tr14
      = (recSmooth (1 / 14) (trQ bars)).map PVal.num := by
  rw [calc_tr14, trCol_eq, ewmMean_false_num]

lemma pDM14_eq (bars : List Bar) (f s : ℕ) :
    (calculate_indicators bars f s).pDM14
      = adjSmooth (1 / 14) ((pdmQ bars).map PVal.num) := by
  rw [calc_pDM14, calc_pDM, pdmCol_eq]
  exact ewmMean_true_adj (1 / 14) (by norm_num) _ (numOrNan_map_num _)

lemma mDM14_eq (bars : List Bar) (f s : ℕ) :
    (calculate_indicators bars f s).mDM14
      = adjSmooth (1 / 14) ((mdmQ bars).map PVal.num) := by
  rw [calc_mDM14, calc_mDM, mdmCol_eq]
  exact ewmMean_true_adj (1 / 14) (by norm_num) _ (numOrNan_map_num _)

lemma tr14_entries (bars : List Bar) (f s : ℕ)
    (hLH : ∀ b ∈ bars, b.low ≤ b.high) :
    ∀ v ∈ (calculate_indicators bars f s).tr14, ∃ a, v = PVal.num a ∧ 0 ≤ a := by
  rw [tr14_eq]
  intro v hv
  rcases List.mem_map.mp hv with ⟨a, ha, rfl⟩
  exact ⟨a, rfl, recSmooth_nonneg (1 / 14) (by norm_num) (by norm_num) _
    (trQ_nonneg bars hLH) a ha⟩

lemma pDM14_entries (bars : List Bar) (f s : ℕ) :
    ∀ v ∈ (calculate_indicators bars f s).pDM14, ∃ a, v = PVal.num a ∧ 0 ≤ a := by
  rw [pDM14_eq]
  exact adjSmoothGo_num_nonneg (1 / 14) (by norm_num) _ 0 0 (le_refl 0) (le_refl 0)
    (pdmQ_nonneg bars)

lemma mDM14_entries (bars : List Bar) (f s : ℕ) :
    ∀ v ∈ (calculate_indicators bars f s).mDM14, ∃ a, v = PVal.num a ∧ 0 ≤ a := by
  rw [mDM14_eq]
  exact adjSmoothGo_num_nonneg (1 / 14) (by norm_num) _ 0 0 (le_refl 0) (le_refl 0)
    (mdmQ_nonneg bars)

/-- A directional-index cell: a nonnegative number, NaN, or +infinity. -/
def nniU (v : PVal) : Prop :=
  (∃ a, v = PVal.num a ∧ 0 ≤ a) ∨ v = PVal.nan ∨ v = PVal.inf

lemma diCell_class (p t : ℚ) (hp : 0 ≤ p) (ht : 0 ≤ t) :
    nniU (diCell (PVal.num p) (PVal.num t)) := by
  rcases eq_or_lt_of_le ht with ht0 | htpos
  · rcases eq_or_lt_of_le hp with hp0 | hppos
    · right; left
      simp [diCell, PVal.div, ← ht0, ← hp0]
    · right; right
      simp [diCell, PVal.div, ← ht0, hppos, PVal.mulc]
  · left
    refine ⟨100 * (p / t), ?_, by positivity⟩
    rw [diCell, PVal.div_num_num _ _ (ne_of_gt htpos), PVal.mulc_num]

lemma dxCell_class (p m : PVal) (hp : nniU p) (hm : nniU m) :
    numOrNan (dxCell p m) := by
  rcases hp with ⟨a, rfl, ha⟩ | rfl | rfl <;>
    rcases hm with ⟨b, rfl, hb⟩ | rfl | rfl
  · rcases eq_or_lt_of_le (by positivity : (0:ℚ) ≤ a + b) with hz | hpos
    · have ha0 : a = 0 := by linarith [abs_nonneg (a - b)]
      have hb0 : b = 0 := by linarith
      subst ha0; subst hb0
      left
      simp [dxCell, PVal.div]
    · right
      refine ⟨100 * |a - b| / (a + b), ?_⟩
      rw [dxCell, PVal.sub_num, PVal.abs_num, PVal.mulc_num, PVal.add_num,
        PVal.div_num_num _ _ (ne_of_gt hpos)]
  · left; simp [dxCell, PVal.sub, PVal.neg, PVal.add]
  · left; simp [dxCell, PVal.sub, PVal.neg, PVal.add, PVal.abs, PVal.mulc, PVal.div]
  · left; simp [dxCell, PVal.sub, PVal.neg, PVal.add]
  · left; simp [dxCell, PVal.sub, PVal.neg, PVal.add]
  · left; simp [dxCell, PVal.sub, PVal.neg, PVal.add, PVal.abs, PVal.mulc, PVal.div]
  · left; simp [dxCell, PVal.sub, PVal.neg, PVal.add, PVal.abs, PVal.mulc, PVal.div]
  · left; simp [dxCell, PVal.sub, PVal.neg, PVal.add, PVal.abs, PVal.mulc, PVal.div]
  · left; simp [dxCell, PVal.sub, PVal.neg, PVal.add, PVal.abs, PVal.mulc, PVal.div]

lemma pDI_entries (bars : List Bar) (f s : ℕ)
    (hLH : ∀ b ∈ bars, b.low ≤ b.high) :
    ∀ v ∈ (calculate_indicators bars f s).pDI, nniU v := by
  rw [calc_pDI]
  intro v hv
  rcases mem_zipWith hv with ⟨dm, tr, hdm, htr, rfl⟩
  rcases pDM14_entries bars f s dm hdm with ⟨a, rfl, ha⟩
  rcases tr14_entries bars f s hLH tr htr with ⟨t, rfl, htt⟩
  exact diCell_class a t ha htt

lemma mDI_entries (bars : List Bar) (f s : ℕ)
    (hLH : ∀ b ∈ bars, b.low ≤ b.high) :
    ∀ v ∈ (calculate_indicators bars f s).mDI, nniU v := by
  rw [calc_mDI]
  intro v hv
  rcases mem_zipWith hv with ⟨dm, tr, hdm, htr, rfl⟩
  rcases mDM14_entries bars f s dm hdm with ⟨a, rfl, ha⟩
  rcases tr14_entries bars f s hLH tr htr with ⟨t, rfl, htt⟩
  exact diCell_class a t ha htt

lemma dx_numOrNan (bars : List Bar) (f s : ℕ)
    (hLH : ∀ b ∈ bars, b.low ≤ b.high) :
    ∀ v ∈ (calculate_indicators bars f s).dx, numOrNan v := by
  rw [calc_dx]
  intro v hv
  rcases mem_zipWith hv with ⟨p, m, hp, hm, rfl⟩
  exact dxCell_class p m (pDI_entries bars f s hLH p hp) (mDI_entries bars f s hLH m hm)

lemma adx_eq (bars : List Bar) (f s : ℕ)
    (hLH : ∀ b ∈ bars, b.low ≤ b.high) :
    (calculate_indicators bars f s).adx
      = adjSmooth (1 / 14) ((calculate_indicators bars f s).dx) := by
  rw [calc_adx]
  exact ewmMean_true_adj (1 / 14) (by norm_num) _ (dx_numOrNan bars f s hLH)

/-
Positional access lemmas.
-/

lemma getD_zipWith {α β γ : Type} (f : α → β → γ) (as : List α) (bs : List β)
    (i : ℕ) (d : γ) (da : α) (db : β) (hia : i < as.length) (hib : i < bs.length) :
    (List.zipWith f as bs).getD i d = f (as.getD i da) (bs.getD i db) := by
  have hiz : i < (List.zipWith f as bs).length := by
    rw [List.length_zipWith]; omega
  rw [List.getD_eq_getElem _ _ hiz, List.getD_eq_getElem _ _ hia,
    List.getD_eq_getElem _ _ hib]
  simp [List.getElem_zipWith]

lemma getD_map_num (qs : List ℚ) (i : ℕ) (hi : i < qs.length) :
    (qs.map PVal.num).getD i PVal.nan = PVal.num (qs.getD i 0) := by
  have him : i < (qs.map PVal.num).length := by simpa using hi
  rw [List.getD_eq_getElem _ _ him, List.getD_eq_getElem _ _ hi]
  simp [List.getElem_map]

/-
Zero propagation through the smoothings: a zero smoothed true range forces
all earlier true ranges (hence all earlier directional movements) to be zero.
-/

lemma wilderStepZero (alpha s x : ℚ) (h0 : 0 < alpha) (h1 : alpha < 1)
    (hs : 0 ≤ s) (hx : 0 ≤ x) (hz : s + alpha * (x - s) = 0) : s = 0 ∧ x = 0 := by
  have ha : (0:ℚ) < 1 - alpha := by linarith
  have e1 : (1 - alpha) * s + alpha * x = 0 := by ring_nf; ring_nf at hz; linarith
  have t1 : 0 ≤ (1 - alpha) * s := mul_nonneg (le_of_lt ha) hs
  have t2 : 0 ≤ alpha * x := mul_nonneg (le_of_lt h0) hx
  have z1 : (1 - alpha) * s = 0 := by linarith
  have z2 : alpha * x = 0 := by linarith
  constructor
  · rcases mul_eq_zero.mp z1 with h | h
    · linarith
    · exact h
  · rcases mul_eq_zero.mp z2 with h | h
    · linarith
    · exact h

lemma recGo_zero (alpha : ℚ) (h0 : 0 < alpha) (h1 : alpha < 1) :
    ∀ (xs : List ℚ) (s : ℚ), 0 ≤ s → (∀ q ∈ xs, 0 ≤ q) →
      ∀ i, i < xs.length → (recGo alpha s xs).getD i 0 = 0 →
        s = 0 ∧ ∀ j, j ≤ i → xs.getD j 0 = 0 := by
  intro xs
  induction xs with
  | nil => intro s _ _ i hi; simp at hi
  | cons x xs ih =>
      intro s hs hxs i hi hz
      have hx : 0 ≤ x := hxs x (List.mem_cons_self x xs)
      have hs2 : 0 ≤ s + alpha * (x - s) := by nlinarith
      cases i with
      | zero =>
          simp only [recGo, List.getD_cons_zero] at hz
          rcases wilderStepZero alpha s x h0 h1 hs hx hz with ⟨hs0, hx0⟩
          refine ⟨hs0, fun j hj => ?_⟩
          have hj0 : j = 0 := Nat.le_zero.mp hj
          subst hj0
          simpa using hx0
      | succ i =>
          simp only [recGo, List.getD_cons_succ] at hz
          obtain ⟨hszero, hrest⟩ := ih (s + alpha * (x - s)) hs2
            (fun q hq => hxs q (List.mem_cons_of_mem x hq)) i
            (by simpa using hi) hz
          rcases wilderStepZero alpha s x h0 h1 hs hx hszero with ⟨hs0, hx0⟩
          refine ⟨hs0, fun j hj => ?_⟩
          cases j with
          | zero => simpa using hx0
          | succ j =>
              simp only [List.getD_cons_succ]
              exact hrest j (Nat.succ_le_succ_iff.mp hj)

lemma recSmooth_zero (alpha : ℚ) (h0 : 0 < alpha) (h1 : alpha < 1)
    (xs : List ℚ) (hxs : ∀ q ∈ xs, 0 ≤ q) (i : ℕ) (hi : i < xs.length)
    (hz : (recSmooth alpha xs).getD i 0 = 0) :
    ∀ j, j ≤ i → xs.getD j 0 = 0 := by
  cases xs with
  | nil => simp at hi
  | cons x xs =>
      cases i with
      | zero =>
          simp only [recSmooth, List.getD_cons_zero] at hz
          intro j hj
          have hj0 : j = 0 := Nat.le_zero.mp hj
          subst hj0
          simpa using hz
      | succ i =>
          simp only [recSmooth, List.getD_cons_succ] at hz
          obtain ⟨hx0, hrest⟩ := recGo_zero alpha h0 h1 xs x
            (hxs x (List.mem_cons_self x xs))
            (fun q hq => hxs q (List.mem_cons_of_mem x hq)) i
            (by simpa using hi) hz
          intro j hj
          cases j with
          | zero => simpa using hx0
          | succ j =>
              simp only [List.getD_cons_succ]
              exact hrest j (Nat.succ_le_succ_iff.mp hj)

lemma trQgo_zero_dm (prev : Bar) (bs : List Bar) :
    ∀ j, validBar prev → (∀ b ∈ bs, validBar b) → j < bs.length →
      (trQgo prev bs).getD j 0 = 0 →
      (pdmQgo prev bs).getD j 0 = 0 ∧ (mdmQgo prev bs).getD j 0 = 0 := by
  induction bs generalizing prev with
  | nil => intro j _ _ hj; simp at hj
  | cons c cs ih =>
      intro j hvp hvb hj hz
      cases j with
      | zero =>
          simp only [trQgo, List.getD_cons_zero] at hz
          have h2 : |c.high - prev.close| = 0 := by
            have hle : |c.high - prev.close| ≤ 0 := by
              calc |c.high - prev.close|
                  ≤ max (c.high - c.low) |c.high - prev.close| := le_max_right _ _
                _ ≤ max (max (c.high - c.low) |c.high - prev.close|)
                    |c.low - prev.close| := le_max_left _ _
                _ = 0 := hz
            linarith [abs_nonneg (c.high - prev.close)]
          have h3 : |c.low - prev.close| = 0 := by
            have hle : |c.low - prev.close| ≤ 0 := le_of_le_of_eq (le_max_right _ _) hz
            linarith [abs_nonneg (c.low - prev.close)]
          have hch : c.high = prev.close := by
            have := abs_eq_zero.mp h2
            linarith
          have hcl : c.low = prev.close := by
            have := abs_eq_zero.mp h3
            linarith
          constructor
          · simp only [pdmQgo, List.getD_cons_zero]
            rw [if_neg]
            intro hcond
            have hup : c.high - prev.high ≤ 0 := by
              have := hvp.2
              linarith
            linarith [hcond.2]
          · simp only [mdmQgo, List.getD_cons_zero]
            rw [if_neg]
            intro hcond
            have hdn : prev.low - c.low ≤ 0 := by
              have := hvp.1
              linarith
            linarith [hcond.2]
      | succ j =>
          simp only [trQgo, pdmQgo, mdmQgo, List.getD_cons_succ] at hz ⊢
          exact ih c j (hvb c (List.mem_cons_self c cs))
            (fun b hb => hvb b (List.mem_cons_of_mem c hb))
            (by simpa using hj) hz

lemma trQ_zero_dm (bars : List Bar) (hv : ∀ b ∈ bars, validBar b) :
    ∀ j, j < bars.length → (trQ bars).getD j 0 = 0 →
      (pdmQ bars).getD j 0 = 0 ∧ (mdmQ bars).getD j 0 = 0 := by
  cases bars with
  | nil => intro j hj; simp at hj
  | cons b bs =>
      intro j hj hz
      cases j with
      | zero => constructor <;> simp [pdmQ, mdmQ]
      | succ j =>
          simp only [trQ, pdmQ, mdmQ, List.getD_cons_succ] at hz ⊢
          exact trQgo_zero_dm b bs j (hv b (List.mem_cons_self b bs))
            (fun c hc => hv c (List.mem_cons_of_mem b hc))
            (by simpa using hj) hz

lemma adjGoZero (alpha : ℚ) (ha : 0 < 1 - alpha) :
    ∀ (qs : List ℚ) (d : ℚ), 0 ≤ d → ∀ i, i < qs.length →
      (∀ j, j ≤ i → qs.getD j 0 = 0) →
      (adjSmoothGo alpha 0 d (qs.map PVal.num)).getD i PVal.nan = PVal.num 0 := by
  intro qs
  induction qs with
  | nil => intro d _ i hi; simp at hi
  | cons q qs ih =>
      intro d hd i hi hjz
      have hq0 : q = 0 := by simpa using hjz 0 (Nat.zero_le i)
      subst hq0
      cases i with
      | zero =>
          simp [adjSmoothGo]
      | succ i =>
          have hd2 : 0 ≤ (1 - alpha) * d + 1 := by nlinarith
          simp only [List.map_cons, adjSmoothGo, mul_zero, add_zero,
            List.getD_cons_succ]
          exact ih _ hd2 i (by simpa using hi)
            (fun j hj => by simpa using hjz (j + 1) (Nat.succ_le_succ hj))

/-
Lengths of the indicator columns.
-/

lemma length_trCol (bars : List Bar) : (trCol bars).length = bars.length := by
  rw [trCol_eq, List.length_map, length_trQ]

lemma length_calc_closes (bars : List Bar) (f s : ℕ) :
    (calculate_indicators bars f s).closes.length = bars.length := by
  rw [calc_closes, List.length_map]

lemma length_calc_fastEMA (bars : List Bar) (f s : ℕ) :
    (calculate_indicators bars f s).fastEMA.length = bars.length := by
  rw [calc_fastEMA, length_ewmMean, List.length_map, List.length_map]

lemma length_calc_slowEMA (bars : List Bar) (f s : ℕ) :
    (calculate_indicators bars f s).slowEMA.length = bars.length := by
  rw [calc_slowEMA, length_ewmMean, List.length_map, List.length_map]

lemma length_calc_pDM (bars : List Bar) (f s : ℕ) :
    (calculate_indicators bars f s).pDM.length = bars.length := by
  rw [calc_pDM, List.length_zipWith, length_upMoveCol, length_downMoveCol]
  exact Nat.min_self _

lemma length_calc_mDM (bars : List Bar) (f s : ℕ) :
    (calculate_indicators bars f s).mDM.length = bars.length := by
  rw [calc_mDM, List.length_zipWith, length_upMoveCol, length_downMoveCol]
  exact Nat.min_self _

lemma length_calc_tr14 (bars : List Bar) (f s : ℕ) :
    (calculate_indicators bars f s).tr14.length = bars.length := by
  rw [calc_tr14, length_ewmMean, length_trCol]

lemma length_calc_pDM14 (bars : List Bar) (f s : ℕ) :
    (calculate_indicators bars f s).pDM14.length = bars.length := by
  rw [calc_pDM14, length_ewmMean, length_calc_pDM]

lemma length_calc_mDM14 (bars : List Bar) (f s : ℕ) :
    (calculate_indicators bars f s).mDM14.length = bars.length := by
  rw [calc_mDM14, length_ewmMean, length_calc_mDM]

lemma length_calc_pDI (bars : List Bar) (f s : ℕ) :
    (calculate_indicators bars f s).pDI.length = bars.length := by
  rw [calc_pDI, List.length_zipWith, length_calc_pDM14, length_calc_tr14]
  exact Nat.min_self _

lemma length_calc_mDI (bars : List Bar) (f s : ℕ) :
    (calculate_indicators bars f s).mDI.length = bars.length := by
  rw [calc_mDI, List.length_zipWith, length_calc_mDM14, length_calc_tr14]
  exact Nat.min_self _

lemma length_calc_dx (bars : List Bar) (f s : ℕ) :
    (calculate_indicators bars f s).dx.length = bars.length := by
  rw [calc_dx, List.length_zipWith, length_calc_pDI, length_calc_mDI]
  exact Nat.min_self _

lemma length_calc_adx (bars : List Bar) (f s : ℕ) :
    (calculate_indicators bars f s).adx.length = bars.length := by
  rw [calc_adx, length_ewmMean, length_calc_dx]

/-
A zero smoothed true range makes both directional indices undefined.
-/

lemma tr14_zero_di (bars : List Bar) (f s i : ℕ) (hv : ∀ b ∈ bars, validBar b)
    (hi : i < bars.length)
    (hz : (calculate_indicators bars f s).tr14.getD i PVal.nan = PVal.num 0) :
    (calculate_indicators bars f s).pDI.getD i PVal.nan = PVal.nan ∧
      (calculate_indicators bars f s).mDI.getD i PVal.nan = PVal.nan := by
  have hLH : ∀ b ∈ bars, b.low ≤ b.high :=
    fun b hb => le_trans (hv b hb).1 (hv b hb).2
  have hz2 := hz
  rw [tr14_eq] at hz2
  rw [getD_map_num _ i (by rw [length_recSmooth, length_trQ]; omega)] at hz2
  have hT : (recSmooth (1 / 14) (trQ bars)).getD i 0 = 0 := by
    simpa using hz2
  have htrz : ∀ j, j ≤ i → (trQ bars).getD j 0 = 0 :=
    recSmooth_zero (1 / 14) (by norm_num) (by norm_num) _ (trQ_nonneg bars hLH) i
      (by rw [length_trQ]; omega) hT
  have hpmz : ∀ j, j ≤ i → (pdmQ bars).getD j 0 = 0 := fun j hj =>
    (trQ_zero_dm bars hv j (by omega) (htrz j hj)).1
  have hmmz : ∀ j, j ≤ i → (mdmQ bars).getD j 0 = 0 := fun j hj =>
    (trQ_zero_dm bars hv j (by omega) (htrz j hj)).2
  have hp14 : (calculate_indicators bars f s).pDM14.getD i PVal.nan = PVal.num 0 := by
    rw [pDM14_eq]
    exact adjGoZero (1 / 14) (by norm_num) (pdmQ bars) 0 (le_refl 0) i
      (by rw [length_pdmQ]; omega) hpmz
  have hm14 : (calculate_indicators bars f s).mDM14.getD i PVal.nan = PVal.num 0 := by
    rw [mDM14_eq]
    exact adjGoZero (1 / 14) (by norm_num) (mdmQ bars) 0 (le_refl 0) i
      (by rw [length_mdmQ]; omega) hmmz
  constructor
  · rw [calc_pDI, getD_zipWith diCell _ _ i PVal.nan PVal.nan PVal.nan
      (by rw [length_calc_pDM14]; omega) (by rw [length_calc_tr14]; omega)]
    rw [hp14, hz]
    simp [diCell, PVal.div]
  · rw [calc_mDI, getD_zipWith diCell _ _ i PVal.nan PVal.nan PVal.nan
      (by rw [length_calc_mDM14]; omega) (by rw [length_calc_tr14]; omega)]
    rw [hm14, hz]
    simp [diCell, PVal.div]

lemma di_sum_zero_dx (bars : List Bar) (f s i : ℕ)
    (hLH : ∀ b ∈ bars, b.low ≤ b.high) (hi : i < bars.length)
    (hz : PVal.add ((calculate_indicators bars f s).pDI.getD i PVal.nan)
            ((calculate_indicators bars f s).mDI.getD i PVal.nan) = PVal.num 0) :
    (calculate_indicators bars f s).dx.getD i PVal.nan = PVal.nan := by
  rcases PVal.add_eq_num _ _ _ hz with ⟨a, b, hpa, hmb, hab⟩
  have hpmem : (calculate_indicators bars f s).pDI.getD i PVal.nan
      ∈ (calculate_indicators bars f s).pDI := by
    rw [List.getD_eq_getElem _ _ (by rw [length_calc_pDI]; omega)]
    exact List.getElem_mem _
  have hmmem : (calculate_indicators bars f s).mDI.getD i PVal.nan
      ∈ (calculate_indicators bars f s).mDI := by
    rw [List.getD_eq_getElem _ _ (by rw [length_calc_mDI]; omega)]
    exact List.getElem_mem _
  have hpcl := pDI_entries bars f s hLH _ hpmem
  have hmcl := mDI_entries bars f s hLH _ hmmem
  rw [hpa] at hpcl
  rw [hmb] at hmcl
  have ha0 : 0 ≤ a := by
    rcases hpcl with ⟨x, hx, hxx⟩ | hx | hx
    · rw [show a = x from by injection hx]
      exact hxx
    · exact absurd hx (by simp)
    · exact absurd hx (by simp)
  have hb0 : 0 ≤ b := by
    rcases hmcl with ⟨x, hx, hxx⟩ | hx | hx
    · rw [show b = x from by injection hx]
      exact hxx
    · exact absurd hx (by simp)
    · exact absurd hx (by simp)
  have haz : a = 0 := by linarith
  have hbz : b = 0 := by linarith
  subst haz
  subst hbz
  rw [calc_dx, getD_zipWith dxCell _ _ i PVal.nan PVal.nan PVal.nan
    (by rw [length_calc_pDI]; omega) (by rw [length_calc_mDI]; omega), hpa, hmb]
  simp [dxCell, PVal.div]

/-
Access lemmas for the detector.
-/

lemma detect_eq (rows : List IndRow) (thr : ℚ) (h2 : 2 ≤ rows.length) :
    detect rows thr =
      (if PVal.leB (rows.getD (rows.length - 2) dRow).fastEMA
            (rows.getD (rows.length - 2) dRow).slowEMA
          && PVal.gtB (rows.getD (rows.length - 1) dRow).fastEMA
            (rows.getD (rows.length - 1) dRow).slowEMA
          && PVal.geB (rows.getD (rows.length - 1) dRow).adx (PVal.num thr)
       then some { close := (rows.getD (rows.length - 1) dRow).close,
                   adx := (rows.getD (rows.length - 1) dRow).adx }
       else none) := by
  have h1 : rows.length - 1 < rows.length := by omega
  have hdl : rows.dropLast.length = rows.length - 1 := List.length_dropLast rows
  have hlast : rows.getLast? = some (rows.getD (rows.length - 1) dRow) := by
    rw [List.getLast?_eq_getElem?, List.getElem?_eq_getElem h1,
      List.getD_eq_getElem _ _ h1]
  have hprev : rows.dropLast.getLast? = some (rows.getD (rows.length - 2) dRow) := by
    rw [List.getLast?_eq_getElem?, hdl]
    have hidx : rows.length - 1 - 1 = rows.length - 2 := by omega
    rw [hidx,
      List.getElem?_eq_getElem (by omega : rows.length - 2 < rows.dropLast.length)]
    congr 1
    rw [List.getElem_dropLast, List.getD_eq_getElem _ _ (by omega)]
  unfold detect
  rw [hlast, hprev]

/-
The row view of the indicator frame.
-/

lemma rowsZip_length :
    ∀ (cs : List ℚ) (fs sls ds adxs : List PVal),
      fs.length = cs.length → sls.length = cs.length → ds.length = cs.length →
      adxs.length = cs.length → (rowsZip cs fs sls ds adxs).length = cs.length := by
  intro cs
  induction cs with
  | nil =>
      intro fs sls ds adxs h1 _ _ _
      rw [List.length_eq_zero.mp h1]
      rfl
  | cons c cs ih =>
      intro fs sls ds adxs h1 h2 h3 h4
      cases fs with
      | nil => simp at h1
      | cons f fs =>
          cases sls with
          | nil => simp at h2
          | cons sl sls =>
              cases ds with
              | nil => simp at h3
              | cons d ds =>
                  cases adxs with
                  | nil => simp at h4
                  | cons a adxs =>
                      simp only [List.length_cons, Nat.succ.injEq] at h1 h2 h3 h4
                      simp only [rowsZip, List.length_cons]
                      rw [ih fs sls ds adxs h1 h2 h3 h4]

lemma rowsZip_getD :
    ∀ (cs : List ℚ) (fs sls ds adxs : List PVal) (i : ℕ),
      fs.length = cs.length → sls.length = cs.length → ds.length = cs.length →
      adxs.length = cs.length → i < cs.length →
      (rowsZip cs fs sls ds adxs).getD i dRow =
        { close := cs.getD i 0, fastEMA := fs.getD i PVal.nan,
          slowEMA := sls.getD i PVal.nan, dx := ds.getD i PVal.nan,
          adx := adxs.getD i PVal.nan } := by
  intro cs
  induction cs with
  | nil => intro fs sls ds adxs i _ _ _ _ hi; simp at hi
  | cons c cs ih =>
      intro fs sls ds adxs i h1 h2 h3 h4 hi
      cases fs with
      | nil => simp at h1
      | cons f fs =>
          cases sls with
          | nil => simp at h2
          | cons sl sls =>
              cases ds with
              | nil => simp at h3
              | cons d ds =>
                  cases adxs with
                  | nil => simp at h4
                  | cons a adxs =>
                      simp only [List.length_cons, Nat.succ.injEq] at h1 h2 h3 h4
                      cases i with
                      | zero => simp [rowsZip]
                      | succ i =>
                          simp only [rowsZip, List.getD_cons_succ]
                          exact ih fs sls ds adxs i h1 h2 h3 h4 (by simpa using hi)

lemma length_rowsOf (bars : List Bar) (f s : ℕ) :
    (rowsOf (calculate_indicators bars f s)).length = bars.length := by
  rw [rowsOf, rowsZip_length _ _ _ _ _
      (by rw [length_calc_fastEMA, length_calc_closes])
      (by rw [length_calc_slowEMA, length_calc_closes])
      (by rw [length_calc_dx, length_calc_closes])
      (by rw [length_calc_adx, length_calc_closes]),
    length_calc_closes]

lemma rowsOf_getD (bars : List Bar) (f s i : ℕ) (hi : i < bars.length) :
    (rowsOf (calculate_indicators bars f s)).getD i dRow =
      { close := (calculate_indicators bars f s).closes.getD i 0,
        fastEMA := (calculate_indicators bars f s).fastEMA.getD i PVal.nan,
        slowEMA := (calculate_indicators bars f s).slowEMA.getD i PVal.nan,
        dx := (calculate_indicators bars f s).dx.getD i PVal.nan,
        adx := (calculate_indicators bars f s).adx.getD i PVal.nan } := by
  rw [rowsOf]
  rw [rowsZip_getD _ _ _ _ _ i
      (by rw [length_calc_fastEMA, length_calc_closes])
      (by rw [length_calc_slowEMA, length_calc_closes])
      (by rw [length_calc_dx, length_calc_closes])
      (by rw [length_calc_adx, length_calc_closes])
      (by rw [length_calc_closes]; omega)]

/-
Constant-close series: both EMA columns are constant.
-/

lemma recGo_const (alpha c : ℚ) (n : ℕ) :
    recGo alpha c (List.replicate n c) = List.replicate n c := by
  induction n with
  | zero => rfl
  | succ n ih =>
      simp only [List.replicate_succ, recGo, sub_self, mul_zero, add_zero]
      exact congrArg _ ih

lemma recSmooth_const (alpha c : ℚ) (n : ℕ) :
    recSmooth alpha (List.replicate n c) = List.replicate n c := by
  cases n with
  | zero => rfl
  | succ n =>
      simp only [List.replicate_succ, recSmooth, recGo_const]

/-
Orchestrator lemmas.
-/

lemma processTarget_discord_error (fr : Except String (List Bar)) (t : Target)
    (thr : ℚ) (e : String) :
    processTarget fr (Except.error e) t thr = none := by
  cases fr with
  | error _ => rfl
  | ok data =>
      simp only [processTarget]
      split
      · rfl
      · cases detect (rowsOf (calculate_indicators data t.fast t.slow)) thr <;> rfl

lemma runScan_split (ts1 : List Target) (t : Target) (ts2 : List Target)
    (fetch : Target → Except String (List Bar))
    (discord : Target → Except String Unit) (thr : ℚ)
    (h : processTarget (fetch t) (discord t) t thr = none) :
    runScan (ts1 ++ t :: ts2) fetch discord thr
      = runScan ts1 fetch discord thr ++ runScan ts2 fetch discord thr := by
  simp [runScan, List.filterMap_append, List.filterMap_cons, h]

lemma runScan_filter_ok (ts : List Target)
    (fetch : Target → Except String (List Bar))
    (discord : Target → Except String Unit) (thr : ℚ) :
    runScan ts fetch discord thr
      = runScan (ts.filter (fun t =>
          match fetch t with
          | Except.ok _ => true
          | Except.error _ => false)) fetch discord thr := by
  induction ts with
  | nil => rfl
  | cons t ts ih =>
      by_cases hf : ∃ e, fetch t = Except.error e
      · rcases hf with ⟨e, he⟩
        simp [runScan, List.filterMap_cons, List.filter_cons, he, processTarget] at ih ⊢
        exact ih
      · have hok : ∃ d, fetch t = Except.ok d := by
          cases hfe : fetch t with
          | ok d => exact ⟨d, rfl⟩
          | error e => exact absurd ⟨e, hfe⟩ hf
        rcases hok with ⟨d, hd⟩
        simp [runScan, List.filterMap_cons, List.filter_cons, hd] at ih ⊢
        rw [ih]

lemma scanRows_ok (fetch : Target → Except String (List Bar))
    (discord : Target → Except String Unit) (thr : ℚ) (rows : List RawRow)
    (hp : ∀ r ∈ rows, r.fastVal.isSome ∧ r.slowVal.isSome) :
    scanRows fetch discord thr rows
      = Except.ok (runScan (parsedTargets rows) fetch discord thr) := by
  induction rows with
  | nil => rfl
  | cons r rs ih =>
      obtain ⟨hf, hs⟩ := hp r (List.mem_cons_self r rs)
      rcases Option.isSome_iff_exists.mp hf with ⟨f, hfv⟩
      rcases Option.isSome_iff_exists.mp hs with ⟨s, hsv⟩
      have ihr := ih (fun x hx => hp x (List.mem_cons_of_mem r hx))
      simp only [scanRows, hfv, hsv, ihr, parsedTargets, List.filterMap_cons]
      simp only [runScan, List.filterMap_cons]
      cases hpt : processTarget (fetch { ticker := r.ticker, fast := f, slow := s })
          (discord { ticker := r.ticker, fast := f, slow := s })
          { ticker := r.ticker, fast := f, slow := s } thr with
      | none => simp [hpt, parsedTargets, runScan]
      | some sig => simp [hpt, parsedTargets, runScan]

/-
Concrete series used by the counterexamples and witnesses.
-/

/-- Two bars with a rising high: +DM = [0, 5]. -/
def barsAdj : List Bar :=
  [{ high := 10, low := 9, close := 19/2 }, { high := 15, low := 9, close := 14 }]

/-- Three valid bars: a flat pair then an upward breakout on the last bar. -/
def barsNanRow : List Bar :=
  [{ high := 10, low := 9, close := 19/2 }, { high := 10, low := 9, close := 19/2 },
   { high := 12, low := 10, close := 12 }]

/-- A flat zero-range pair of bars (every price equal). -/
def barsFlat : List Bar := [{ high := 5, low := 5, close := 5 },
  { high := 5, low := 5, close := 5 }]

/-- Eight flat bars then an upward breakout: nine bars, enough for the
`slow + 5` guard with slow = 4, producing a signal with ADX = 100. -/
def sigBars : List Bar :=
  [{ high := 10, low := 9, close := 19/2 }, { high := 10, low := 9, close := 19/2 },
   { high := 10, low := 9, close := 19/2 }, { high := 10, low := 9, close := 19/2 },
   { high := 10, low := 9, close := 19/2 }, { high := 10, low := 9, close := 19/2 },
   { high := 10, low := 9, close := 19/2 }, { high := 10, low := 9, close := 19/2 },
   { high := 12, low := 10, close := 12 }]

lemma barsNanRow_rows :
    rowsOf (calculate_indicators barsNanRow 2 4) =
      [{ close := 19/2, fastEMA := PVal.num (19/2), slowEMA := PVal.num (19/2),
         dx := PVal.nan, adx := PVal.nan },
       { close := 19/2, fastEMA := PVal.num (19/2), slowEMA := PVal.num (19/2),
         dx := PVal.nan, adx := PVal.nan },
       { close := 12, fastEMA := PVal.num (67/6), slowEMA := PVal.num (21/2),
         dx := PVal.num 100, adx := PVal.num 100 }] := by
  have hup : upMoveCol barsNanRow = [PVal.nan, PVal.num 0, PVal.num 2] := by
    norm_num [barsNanRow, upMoveCol, upMoveGo, PVal.sub, PVal.neg, PVal.add]
  have hdn : downMoveCol barsNanRow = [PVal.nan, PVal.num 0, PVal.num (-1)] := by
    norm_num [barsNanRow, downMoveCol, downMoveGo, PVal.sub, PVal.neg, PVal.add]
  have hpdm : (calculate_indicators barsNanRow 2 4).pDM
      = [PVal.num 0, PVal.num 0, PVal.num 2] := by
    rw [calc_pDM, hup, hdn]
    norm_num [pdmCell, PVal.gtB, PVal.ltB]
  have hmdm : (calculate_indicators barsNanRow 2 4).mDM
      = [PVal.num 0, PVal.num 0, PVal.num 0] := by
    rw [calc_mDM, hup, hdn]
    norm_num [mdmCell, PVal.gtB, PVal.ltB]
  have htr : trCol barsNanRow = [PVal.num 1, PVal.num 1, PVal.num (5/2)] := by
    norm_num [barsNanRow, trCol, trGo, trCell, PVal.maxSk, PVal.leB, PVal.sub,
      PVal.neg, PVal.add, PVal.abs, abs_of_nonneg, abs_of_nonpos]
  have htr14 : (calculate_indicators barsNanRow 2 4).tr14
      = [PVal.num 1, PVal.num 1, PVal.num (31/28)] := by
    rw [calc_tr14, htr]
    norm_num [ewmMean, ewmGo, ewmStep, PVal.mulc, PVal.add, PVal.div]
  have hpdm14 : (calculate_indicators barsNanRow 2 4).pDM14
      = [PVal.num 0, PVal.num 0, PVal.num (392/547)] := by
    rw [calc_pDM14, hpdm]
    norm_num [ewmMean, ewmGo, ewmStep, PVal.mulc, PVal.add, PVal.div]
  have hmdm14 : (calculate_indicators barsNanRow 2 4).mDM14
      = [PVal.num 0, PVal.num 0, PVal.num 0] := by
    rw [calc_mDM14, hmdm]
    norm_num [ewmMean, ewmGo, ewmStep, PVal.mulc, PVal.add, PVal.div]
  have hpdi : (calculate_indicators barsNanRow 2 4).pDI
      = [PVal.num 0, PVal.num 0, PVal.num (1097600/16957)] := by
    rw [calc_pDI, hpdm14, htr14]
    norm_num [diCell, PVal.div, PVal.mulc]
  have hmdi : (calculate_indicators barsNanRow 2 4).mDI
      = [PVal.num 0, PVal.num 0, PVal.num 0] := by
    rw [calc_mDI, hmdm14, htr14]
    norm_num [diCell, PVal.div, PVal.mulc]
  have hdx : (calculate_indicators barsNanRow 2 4).dx
      = [PVal.nan, PVal.nan, PVal.num 100] := by
    rw [calc_dx, hpdi, hmdi]
    norm_num [dxCell, PVal.sub, PVal.neg, PVal.add, PVal.abs, PVal.mulc, PVal.div,
      abs_of_nonneg]
  have hadx : (calculate_indicators barsNanRow 2 4).adx
      = [PVal.nan, PVal.nan, PVal.num 100] := by
    rw [calc_adx, hdx]
    norm_num [ewmMean, ewmGo, ewmStep, PVal.mulc, PVal.add, PVal.div]
  have hfast : (calculate_indicators barsNanRow 2 4).fastEMA
      = [PVal.num (19/2), PVal.num (19/2), PVal.num (67/6)] := by
    rw [calc_fastEMA]
    norm_num [barsNanRow, ewmMean, ewmGo, ewmStep, PVal.mulc, PVal.add, PVal.div]
  have hslow : (calculate_indicators barsNanRow 2 4).slowEMA
      = [PVal.num (19/2), PVal.num (19/2), PVal.num (21/2)] := by
    rw [calc_slowEMA]
    norm_num [barsNanRow, ewmMean, ewmGo, ewmStep, PVal.mulc, PVal.add, PVal.div]
  rw [rowsOf, calc_closes, hfast, hslow, hdx, hadx]
  norm_num [barsNanRow, rowsZip]

lemma sigBars_rows :
    rowsOf (calculate_indicators sigBars 2 4) =
      [{ close := 19/2, fastEMA := PVal.num (19/2), slowEMA := PVal.num (19/2),
         dx := PVal.nan, adx := PVal.nan },
       { close := 19/2, fastEMA := PVal.num (19/2), slowEMA := PVal.num (19/2),
         dx := PVal.nan, adx := PVal.nan },
       { close := 19/2, fastEMA := PVal.num (19/2), slowEMA := PVal.num (19/2),
         dx := PVal.nan, adx := PVal.nan },
       { close := 19/2, fastEMA := PVal.num (19/2), slowEMA := PVal.num (19/2),
         dx := PVal.nan, adx := PVal.nan },
       { close := 19/2, fastEMA := PVal.num (19/2), slowEMA := PVal.num (19/2),
         dx := PVal.nan, adx := PVal.nan },
       { close := 19/2, fastEMA := PVal.num (19/2), slowEMA := PVal.num (19/2),
         dx := PVal.nan, adx := PVal.nan },
       { close := 19/2, fastEMA := PVal.num (19/2), slowEMA := PVal.num (19/2),
         dx := PVal.nan, adx := PVal.nan },
       { close := 19/2, fastEMA := PVal.num (19/2), slowEMA := PVal.num (19/2),
         dx := PVal.nan, adx := PVal.nan },
       { close := 12, fastEMA := PVal.num (67/6), slowEMA := PVal.num (21/2),
         dx := PVal.num 100, adx := PVal.num 100 }] := by
  have hup : upMoveCol sigBars = [PVal.nan, PVal.num 0, PVal.num 0, PVal.num 0,
      PVal.num 0, PVal.num 0, PVal.num 0, PVal.num 0, PVal.num 2] := by
    norm_num [sigBars, upMoveCol, upMoveGo, PVal.sub, PVal.neg, PVal.add]
  have hdn : downMoveCol sigBars = [PVal.nan, PVal.num 0, PVal.num 0, PVal.num 0,
      PVal.num 0, PVal.num 0, PVal.num 0, PVal.num 0, PVal.num (-1)] := by
    norm_num [sigBars, downMoveCol, downMoveGo, PVal.sub, PVal.neg, PVal.add]
  have hpdm : (calculate_indicators sigBars 2 4).pDM
      = [PVal.num 0, PVal.num 0, PVal.num 0, PVal.num 0, PVal.num 0, PVal.num 0,
         PVal.num 0, PVal.num 0, PVal.num 2] := by
    rw [calc_pDM, hup, hdn]
    norm_num [pdmCell, PVal.gtB, PVal.ltB]
  have hmdm : (calculate_indicators sigBars 2 4).mDM
      = [PVal.num 0, PVal.num 0, PVal.num 0, PVal.num 0, PVal.num 0, PVal.num 0,
         PVal.num 0, PVal.num 0, PVal.num 0] := by
    rw [calc_mDM, hup, hdn]
    norm_num [mdmCell, PVal.gtB, PVal.ltB]
  have htr : trCol sigBars = [PVal.num 1, PVal.num 1, PVal.num 1, PVal.num 1,
      PVal.num 1, PVal.num 1, PVal.num 1, PVal.num 1, PVal.num (5/2)] := by
    norm_num [sigBars, trCol, trGo, trCell, PVal.maxSk, PVal.leB, PVal.sub,
      PVal.neg, PVal.add, PVal.abs, abs_of_nonneg, abs_of_nonpos]
  have htr14 : (calculate_indicators sigBars 2 4).tr14
      = [PVal.num 1, PVal.num 1, PVal.num 1, PVal.num 1, PVal.num 1, PVal.num 1,
         PVal.num 1, PVal.num 1, PVal.num (31/28)] := by
    rw [calc_tr14, htr]
    norm_num [ewmMean, ewmGo, ewmStep, PVal.mulc, PVal.add, PVal.div]
  have hpdm14 : (calculate_indicators sigBars 2 4).pDM14
      = [PVal.num 0, PVal.num 0, PVal.num 0, PVal.num 0, PVal.num 0, PVal.num 0,
         PVal.num 0, PVal.num 0, PVal.num (2951578112/10056547411)] := by
    rw [calc_pDM14, hpdm]
    norm_num [ewmMean, ewmGo, ewmStep, PVal.mulc, PVal.add, PVal.div]
  have hmdm14 : (calculate_indicators sigBars 2 4).mDM14
      = [PVal.num 0, PVal.num 0, PVal.num 0, PVal.num 0, PVal.num 0, PVal.num 0,
         PVal.num 0, PVal.num 0, PVal.num 0] := by
    rw [calc_mDM14, hmdm]
    norm_num [ewmMean, ewmGo, ewmStep, PVal.mulc, PVal.add, PVal.div]
  have hpdi : (calculate_indicators sigBars 2 4).pDI
      = [PVal.num 0, PVal.num 0, PVal.num 0, PVal.num 0, PVal.num 0, PVal.num 0,
         PVal.num 0, PVal.num 0, PVal.num (8264418713600/311752969741)] := by
    rw [calc_pDI, hpdm14, htr14]
    norm_num [diCell, PVal.div, PVal.mulc]
  have hmdi : (calculate_indicators sigBars 2 4).mDI
      = [PVal.num 0, PVal.num 0, PVal.num 0, PVal.num 0, PVal.num 0, PVal.num 0,
         PVal.num 0, PVal.num 0, PVal.num 0] := by
    rw [calc_mDI, hmdm14, htr14]
    norm_num [diCell, PVal.div, PVal.mulc]
  have hdx : (calculate_indicators sigBars 2 4).dx
      = [PVal.nan, PVal.nan, PVal.nan, PVal.nan, PVal.nan, PVal.nan, PVal.nan,
         PVal.nan, PVal.num 100] := by
    rw [calc_dx, hpdi, hmdi]
    norm_num [dxCell, PVal.sub, PVal.neg, PVal.add, PVal.abs, PVal.mulc, PVal.div,
      abs_of_nonneg]
  have hadx : (calculate_indicators sigBars 2 4).adx
      = [PVal.nan, PVal.nan, PVal.nan, PVal.nan, PVal.nan, PVal.nan, PVal.nan,
         PVal.nan, PVal.num 100] := by
    rw [calc_adx, hdx]
    norm_num [ewmMean, ewmGo, ewmStep, PVal.mulc, PVal.add, PVal.div]
  have hfast : (calculate_indicators sigBars 2 4).fastEMA
      = [PVal.num (19/2), PVal.num (19/2), PVal.num (19/2), PVal.num (19/2),
         PVal.num (19/2), PVal.num (19/2), PVal.num (19/2), PVal.num (19/2),
         PVal.num (67/6)] := by
    rw [calc_fastEMA]
    norm_num [sigBars, ewmMean, ewmGo, ewmStep, PVal.mulc, PVal.add, PVal.div]
  have hslow : (calculate_indicators sigBars 2 4).slowEMA
      = [PVal.num (19/2), PVal.num (19/2), PVal.num (19/2), PVal.num (19/2),
         PVal.num (19/2), PVal.num (19/2), PVal.num (19/2), PVal.num (19/2),
         PVal.num (21/2)] := by
    rw [calc_slowEMA]
    norm_num [sigBars, ewmMean, ewmGo, ewmStep, PVal.mulc, PVal.add, PVal.div]
  rw [rowsOf, calc_closes, hfast, hslow, hdx, hadx]
  norm_num [sigBars, rowsZip]

lemma sigBars_detect :
    detect (rowsOf (calculate_indicators sigBars 2 4)) 25
      = some { close := 12, adx := PVal.num 100 } := by
  rw [sigBars_rows]
  norm_num [detect, List.getLast?, List.getLast, List.dropLast,
    PVal.leB, PVal.gtB, PVal.geB, PVal.ltB]

/-
Claim theorems.
-/

/-- C1: counterexample.  On the two-bar series `barsAdj` the +DM column is
[0, 5], yet the smoothed +DM14 column is not the recursive Wilder smoothing
of [0, 5] seeded at its first value: the code computes the adjusted
(normalized-weights) ewm, 70/27 at index 1, not 5/14.  The claim that all
three smoothed series and ADX use the recursive Wilder recursion is false. -/
theorem C1_counterexample :
    (calculate_indicators barsAdj 2 4).pDM = [PVal.num 0, PVal.num 5] ∧
      (calculate_indicators barsAdj 2 4).pDM14
        ≠ (recSmooth (1 / 14) [0, 5]).map PVal.num := by
  constructor
  · have hup : upMoveCol barsAdj = [PVal.nan, PVal.num 5] := by
      norm_num [barsAdj, upMoveCol, upMoveGo, PVal.sub, PVal.neg, PVal.add]
    have hdn : downMoveCol barsAdj = [PVal.nan, PVal.num 0] := by
      norm_num [barsAdj, downMoveCol, downMoveGo, PVal.sub, PVal.neg, PVal.add]
    rw [calc_pDM, hup, hdn]
    norm_num [pdmCell, PVal.gtB, PVal.ltB]
  · have hup : upMoveCol barsAdj = [PVal.nan, PVal.num 5] := by
      norm_num [barsAdj, upMoveCol, upMoveGo, PVal.sub, PVal.neg, PVal.add]
    have hdn : downMoveCol barsAdj = [PVal.nan, PVal.num 0] := by
      norm_num [barsAdj, downMoveCol, downMoveGo, PVal.sub, PVal.neg, PVal.add]
    have hpdm : (calculate_indicators barsAdj 2 4).pDM
        = [PVal.num 0, PVal.num 5] := by
      rw [calc_pDM, hup, hdn]
      norm_num [pdmCell, PVal.gtB, PVal.ltB]
    have h14 : (calculate_indicators barsAdj 2 4).pDM14
        = [PVal.num 0, PVal.num (70/27)] := by
      rw [calc_pDM14, hpdm]
      norm_num [ewmMean, ewmGo, ewmStep, PVal.mulc, PVal.add, PVal.div]
    rw [h14]
    norm_num [recSmooth, recGo]

/-- C1 (amended): TR14 is the recursive Wilder smoothing (alpha = 1/14,
seeded at TR's first value) of the true-range column; the smoothed +DM14
and -DM14 columns are instead the ADJUSTED exponential mean with
alpha = 1/14 (pandas `adjust=True`): the ratio of the (1-alpha)-discounted
sum of the observations to the discounted sum of their weights
(equivalently, weights (1-alpha)^(t-j) by absolute position); and ADX is
that same adjusted mean of DX, skipping undefined DX entries and undefined
until DX's first defined value (the ADX part stated for series whose bars
satisfy low <= high). -/
theorem C1_amended_theorem (bars : List Bar) (f s : ℕ) :
    (calculate_indicators bars f s).tr14
        = (recSmooth (1 / 14) (trQ bars)).map PVal.num ∧
      (calculate_indicators bars f s).pDM14
        = adjSmooth (1 / 14) ((pdmQ bars).map PVal.num) ∧
      (calculate_indicators bars f s).mDM14
        = adjSmooth (1 / 14) ((mdmQ bars).map PVal.num) ∧
      ((∀ b ∈ bars, b.low ≤ b.high) →
        (calculate_indicators bars f s).adx
          = adjSmooth (1 / 14) ((calculate_indicators bars f s).dx)) :=
  ⟨tr14_eq bars f s, pDM14_eq bars f s, mDM14_eq bars f s, adx_eq bars f s⟩

/-- C1: witness for the amended theorem at the concrete series `barsAdj`. -/
theorem C1_witness :
    (∀ b ∈ barsAdj, b.low ≤ b.high) ∧
      (calculate_indicators barsAdj 2 4).adx
        = adjSmooth (1 / 14) ((calculate_indicators barsAdj 2 4).dx) :=
  ⟨by norm_num [barsAdj], (C1_amended_theorem barsAdj 2 4).2.2.2 (by norm_num [barsAdj])⟩

/-- C2: for a sequence of at least two indicator rows, the detector returns
an event exactly when yesterday's fastEMA <= slowEMA, today's
fastEMA > slowEMA, and today's ADX >= threshold, where today and yesterday
are the last two rows (the result depends on nothing but those two rows, and
comparisons are float comparisons, false on undefined values); the returned
event carries today's close and ADX; making any one condition false gives
none. -/
theorem C2_theorem (rows : List IndRow) (thr : ℚ) (h2 : 2 ≤ rows.length) :
    detect rows thr =
      (if PVal.leB (rows.getD (rows.length - 2) dRow).fastEMA
            (rows.getD (rows.length - 2) dRow).slowEMA
          && PVal.gtB (rows.getD (rows.length - 1) dRow).fastEMA
            (rows.getD (rows.length - 1) dRow).slowEMA
          && PVal.geB (rows.getD (rows.length - 1) dRow).adx (PVal.num thr)
       then some { close := (rows.getD (rows.length - 1) dRow).close,
                   adx := (rows.getD (rows.length - 1) dRow).adx }
       else none) :=
  detect_eq rows thr h2

/-- The two-row sequence used by the C2 witness. -/
def rowsW : List IndRow :=
  [{ close := 10, fastEMA := PVal.num 5, slowEMA := PVal.num 6,
     dx := PVal.num 1, adx := PVal.num 30 },
   { close := 11, fastEMA := PVal.num 7, slowEMA := PVal.num 6,
     dx := PVal.num 2, adx := PVal.num 30 }]

/-- C2: witness at a concrete two-row crossing sequence. -/
theorem C2_witness :
    2 ≤ rowsW.length ∧
      detect rowsW 25 =
        (if PVal.leB (rowsW.getD (rowsW.length - 2) dRow).fastEMA
              (rowsW.getD (rowsW.length - 2) dRow).slowEMA
            && PVal.gtB (rowsW.getD (rowsW.length - 1) dRow).fastEMA
              (rowsW.getD (rowsW.length - 1) dRow).slowEMA
            && PVal.geB (rowsW.getD (rowsW.length - 1) dRow).adx (PVal.num 25)
         then some { close := (rowsW.getD (rowsW.length - 1) dRow).close,
                     adx := (rowsW.getD (rowsW.length - 1) dRow).adx }
         else none) :=
  ⟨by norm_num [rowsW], C2_theorem rowsW 25 (by norm_num [rowsW])⟩

/-- C3: a fetch error for one target is caught inside the scan loop: the
scan of the whole list equals the scans of the prefix and suffix
concatenated (no exception escapes, every remaining target is processed, in
order); and in general the collected events are exactly those of the
non-failing targets, in target-list order. -/
theorem C3_theorem (ts1 ts2 : List Target) (t : Target)
    (fetch : Target → Except String (List Bar))
    (discord : Target → Except String Unit) (thr : ℚ) (e : String)
    (hf : fetch t = Except.error e) :
    runScan (ts1 ++ t :: ts2) fetch discord thr
        = runScan ts1 fetch discord thr ++ runScan ts2 fetch discord thr ∧
      runScan (ts1 ++ t :: ts2) fetch discord thr
        = runScan ((ts1 ++ t :: ts2).filter (fun u =>
            match fetch u with
            | Except.ok _ => true
            | Except.error _ => false)) fetch discord thr := by
  constructor
  · apply runScan_split
    rw [hf]
    rfl
  · exact runScan_filter_ok _ fetch discord thr

/-- The fetch collaborator used by the C3 witness: target T3 fails, the
others return an empty history. -/
def fetchW : Target → Except String (List Bar) :=
  fun t => if t.ticker = "T3" then Except.error "boom" else Except.ok []

/-- C3: witness with five targets of which the third fails to fetch. -/
theorem C3_witness :
    fetchW { ticker := "T3", fast := 2, slow := 4 } = Except.error "boom" ∧
      runScan ([{ ticker := "T1", fast := 2, slow := 4 },
                { ticker := "T2", fast := 2, slow := 4 }]
          ++ { ticker := "T3", fast := 2, slow := 4 } ::
            [{ ticker := "T4", fast := 2, slow := 4 },
             { ticker := "T5", fast := 2, slow := 4 }])
          fetchW (fun _ => Except.ok ()) 25
        = runScan [{ ticker := "T1", fast := 2, slow := 4 },
                   { ticker := "T2", fast := 2, slow := 4 }]
            fetchW (fun _ => Except.ok ()) 25
          ++ runScan [{ ticker := "T4", fast := 2, slow := 4 },
                      { ticker := "T5", fast := 2, slow := 4 }]
            fetchW (fun _ => Except.ok ()) 25 :=
  ⟨rfl, (C3_theorem _ _ { ticker := "T3", fast := 2, slow := 4 } fetchW
      (fun _ => Except.ok ()) 25 "boom" rfl).1⟩

/-- C4: the claim is right and the code is wrong.  `int(row["Fast"])` runs
BEFORE the `try` block of the scan loop, so a row whose period does not
parse raises an uncaught ValueError that aborts the whole scan; the
following well-formed row, which on its own produces a signal, is never
processed.  The spec (and the loop's own catch-and-continue design) says
such a row is skipped and the scan continues. -/
theorem C4_theorem :
    scanRows (fun _ => Except.ok sigBars) (fun _ => Except.ok ()) 25
        [{ ticker := "BAD", fastVal := none, slowVal := some 10 },
         { ticker := "GOOD", fastVal := some 2, slowVal := some 4 }]
        = Except.error "ValueError" ∧
      scanRows (fun _ => Except.ok sigBars) (fun _ => Except.ok ()) 25
        [{ ticker := "GOOD", fastVal := some 2, slowVal := some 4 }]
        = Except.ok [{ ticker := "GOOD", fast := 2, slow := 4,
                       adx := PVal.num 100 }] := by
  constructor
  · rfl
  · have hlen : sigBars.length = 9 := rfl
    simp only [scanRows, processTarget, hlen]
    norm_num [sigBars_detect]

/-- C5: counterexample.  On the valid three-bar series `barsNanRow` the
yesterday row of the computed frame carries the undefined division-by-zero
sentinel in its DX and ADX cells, yet the detector still returns an event:
an undefined value occurring in one of the two inspected rows does not make
the detector return no event — only the five values it actually inspects
matter. -/
theorem C5_counterexample :
    (∀ b ∈ barsNanRow, validBar b) ∧
      ((rowsOf (calculate_indicators barsNanRow 2 4)).getD 1 dRow).adx = PVal.nan ∧
      ((rowsOf (calculate_indicators barsNanRow 2 4)).getD 1 dRow).dx = PVal.nan ∧
      detect (rowsOf (calculate_indicators barsNanRow 2 4)) 25
        = some { close := 12, adx := PVal.num 100 } := by
  refine ⟨by norm_num [barsNanRow, validBar], ?_, ?_, ?_⟩
  · rw [barsNanRow_rows]
    rfl
  · rw [barsNanRow_rows]
    rfl
  · rw [barsNanRow_rows]
    norm_num [detect, List.getLast?, List.getLast, List.dropLast,
      PVal.leB, PVal.gtB, PVal.geB, PVal.ltB]

/-- C5 (amended): for well-formed OHLC bars, a zero divisor in the
directional-index arithmetic yields the undefined (NaN) sentinel rather
than zero or a crash: if TR14 is zero at a row then +DI14 and -DI14 are
undefined there, and if +DI14 + -DI14 is zero then DX is undefined there;
and the detector returns no event, without throwing, whenever one of the
five values it actually inspects (yesterday's fast/slow EMA, today's
fast/slow EMA, today's ADX) is undefined. -/
theorem C5_amended_theorem (bars : List Bar) (f s i : ℕ) (thr : ℚ)
    (rows : List IndRow) (hv : ∀ b ∈ bars, validBar b) (hi : i < bars.length)
    (h2 : 2 ≤ rows.length)
    (hnan : (rows.getD (rows.length - 2) dRow).fastEMA = PVal.nan
      ∨ (rows.getD (rows.length - 2) dRow).slowEMA = PVal.nan
      ∨ (rows.getD (rows.length - 1) dRow).fastEMA = PVal.nan
      ∨ (rows.getD (rows.length - 1) dRow).slowEMA = PVal.nan
      ∨ (rows.getD (rows.length - 1) dRow).adx = PVal.nan) :
    ((calculate_indicators bars f s).tr14.getD i PVal.nan = PVal.num 0 →
        (calculate_indicators bars f s).pDI.getD i PVal.nan = PVal.nan ∧
          (calculate_indicators bars f s).mDI.getD i PVal.nan = PVal.nan) ∧
      (PVal.add ((calculate_indicators bars f s).pDI.getD i PVal.nan)
            ((calculate_indicators bars f s).mDI.getD i PVal.nan) = PVal.num 0 →
        (calculate_indicators bars f s).dx.getD i PVal.nan = PVal.nan) ∧
      detect rows thr = none := by
  have hLH : ∀ b ∈ bars, b.low ≤ b.high :=
    fun b hb => le_trans (hv b hb).1 (hv b hb).2
  refine ⟨fun hz => tr14_zero_di bars f s i hv hi hz,
          fun hz => di_sum_zero_dx bars f s i hLH hi hz, ?_⟩
  rw [detect_eq rows thr h2]
  rcases hnan with h | h | h | h | h <;>
    rw [h] <;> simp [PVal.gtB, PVal.geB]

/-- C5: witness for the amended theorem on the flat zero-range pair
`barsFlat` (where TR14 is zero) with the rows it produces (whose last row
has an undefined ADX). -/
theorem C5_witness :
    ((∀ b ∈ barsFlat, validBar b) ∧ 0 < barsFlat.length ∧
        2 ≤ (rowsOf (calculate_indicators barsFlat 2 4)).length ∧
        ((rowsOf (calculate_indicators barsFlat 2 4)).getD
            ((rowsOf (calculate_indicators barsFlat 2 4)).length - 1) dRow).adx
          = PVal.nan) ∧
      (((calculate_indicators barsFlat 2 4).tr14.getD 0 PVal.nan = PVal.num 0 →
          (calculate_indicators barsFlat 2 4).pDI.getD 0 PVal.nan = PVal.nan ∧
            (calculate_indicators barsFlat 2 4).mDI.getD 0 PVal.nan = PVal.nan) ∧
        (PVal.add ((calculate_indicators barsFlat 2 4).pDI.getD 0 PVal.nan)
              ((calculate_indicators barsFlat 2 4).mDI.getD 0 PVal.nan)
            = PVal.num 0 →
          (calculate_indicators barsFlat 2 4).dx.getD 0 PVal.nan = PVal.nan) ∧
        detect (rowsOf (calculate_indicators barsFlat 2 4)) 25 = none) := by
  have hrows : rowsOf (calculate_indicators barsFlat 2 4) =
      [{ close := 5, fastEMA := PVal.num 5, slowEMA := PVal.num 5,
         dx := PVal.nan, adx := PVal.nan },
       { close := 5, fastEMA := PVal.num 5, slowEMA := PVal.num 5,
         dx := PVal.nan, adx := PVal.nan }] := by
    have hup : upMoveCol barsFlat = [PVal.nan, PVal.num 0] := by
      norm_num [barsFlat, upMoveCol, upMoveGo, PVal.sub, PVal.neg, PVal.add]
    have hdn : downMoveCol barsFlat = [PVal.nan, PVal.num 0] := by
      norm_num [barsFlat, downMoveCol, downMoveGo, PVal.sub, PVal.neg, PVal.add]
    have hpdm : (calculate_indicators barsFlat 2 4).pDM
        = [PVal.num 0, PVal.num 0] := by
      rw [calc_pDM, hup, hdn]
      norm_num [pdmCell, PVal.gtB, PVal.ltB]
    have hmdm : (calculate_indicators barsFlat 2 4).mDM
        = [PVal.num 0, PVal.num 0] := by
      rw [calc_mDM, hup, hdn]
      norm_num [mdmCell, PVal.gtB, PVal.ltB]
    have htr : trCol barsFlat = [PVal.num 0, PVal.num 0] := by
      norm_num [barsFlat, trCol, trGo, trCell, PVal.maxSk, PVal.leB, PVal.sub,
        PVal.neg, PVal.add, PVal.abs]
    have htr14 : (calculate_indicators barsFlat 2 4).tr14
        = [PVal.num 0, PVal.num 0] := by
      rw [calc_tr14, htr]
      norm_num [ewmMean, ewmGo, ewmStep, PVal.mulc, PVal.add, PVal.div]
    have hpdm14 : (calculate_indicators barsFlat 2 4).pDM14
        = [PVal.num 0, PVal.num 0] := by
      rw [calc_pDM14, hpdm]
      norm_num [ewmMean, ewmGo, ewmStep, PVal.mulc, PVal.add, PVal.div]
    have hmdm14 : (calculate_indicators barsFlat 2 4).mDM14
        = [PVal.num 0, PVal.num 0] := by
      rw [calc_mDM14, hmdm]
      norm_num [ewmMean, ewmGo, ewmStep, PVal.mulc, PVal.add, PVal.div]
    have hpdi : (calculate_indicators barsFlat 2 4).pDI
        = [PVal.nan, PVal.nan] := by
      rw [calc_pDI, hpdm14, htr14]
      norm_num [diCell, PVal.div, PVal.mulc]
    have hmdi : (calculate_indicators barsFlat 2 4).mDI
        = [PVal.nan, PVal.nan] := by
      rw [calc_mDI, hmdm14, htr14]
      norm_num [diCell, PVal.div, PVal.mulc]
    have hdx : (calculate_indicators barsFlat 2 4).dx
        = [PVal.nan, PVal.nan] := by
      rw [calc_dx, hpdi, hmdi]
      norm_num [dxCell, PVal.sub, PVal.neg, PVal.add, PVal.abs, PVal.mulc, PVal.div]
    have hadx : (calculate_indicators barsFlat 2 4).adx
        = [PVal.nan, PVal.nan] := by
      rw [calc_adx, hdx]
      norm_num [ewmMean, ewmGo, ewmStep, PVal.mulc, PVal.add, PVal.div]
    have hfast : (calculate_indicators barsFlat 2 4).fastEMA
        = [PVal.num 5, PVal.num 5] := by
      rw [calc_fastEMA]
      norm_num [barsFlat, ewmMean, ewmGo, ewmStep, PVal.mulc, PVal.add, PVal.div]
    have hslow : (calculate_indicators barsFlat 2 4).slowEMA
        = [PVal.num 5, PVal.num 5] := by
      rw [calc_slowEMA]
      norm_num [barsFlat, ewmMean, ewmGo, ewmStep, PVal.mulc, PVal.add, PVal.div]
    rw [rowsOf, calc_closes, hfast, hslow, hdx, hadx]
    norm_num [barsFlat, rowsZip]
  have hlen : (rowsOf (calculate_indicators barsFlat 2 4)).length = 2 := by
    rw [hrows]
    rfl
  refine ⟨⟨by norm_num [barsFlat, validBar], by norm_num [barsFlat],
    by rw [hlen], by rw [hrows]; rfl⟩, ?_⟩
  exact C5_amended_theorem barsFlat 2 4 0 25
    (rowsOf (calculate_indicators barsFlat 2 4))
    (by norm_num [barsFlat, validBar]) (by norm_num [barsFlat])
    (by rw [hlen])
    (by rw [hrows]; right; right; right; right; rfl)

/-- C6: each EMA column is the spec recursion with alpha = 2/(period+1)
(`ewm(span=period, adjust=False)`): seeded at the first close, then
`ema[i] = ema[i-1] + alpha * (close[i] - ema[i-1])` for every later bar. -/
theorem C6_theorem (bars : List Bar) (f s : ℕ) :
    (calculate_indicators bars f s).fastEMA
        = (recSmooth (2 / ((f : ℚ) + 1)) (bars.map Bar.close)).map PVal.num ∧
      (calculate_indicators bars f s).slowEMA
        = (recSmooth (2 / ((s : ℚ) + 1)) (bars.map Bar.close)).map PVal.num := by
  constructor
  · rw [calc_fastEMA, ewmMean_false_num]
  · rw [calc_slowEMA, ewmMean_false_num]

/-- C7: counterexample.  A missing target list makes `main` print a message
and RETURN: the process outcome is a normal zero exit, not a non-zero one;
and a row with an unparseable period — a different failure class — is what
actually escapes as an uncaught error (non-zero outcome), so the fatal
class is neither reported through a non-zero exit nor the only class that
aborts. -/
theorem C7_counterexample :
    mainModel FileState.missing (fun _ => Except.error "net down")
        (fun _ => Except.ok ()) (Except.ok ()) 25 = RunOutcome.exitedZero [] ∧
      mainModel (FileState.rows
          [{ ticker := "BAD", fastVal := none, slowVal := some 10 }])
        (fun _ => Except.error "net down") (fun _ => Except.ok ())
        (Except.ok ()) 25 = RunOutcome.raised "ValueError" :=
  ⟨rfl, rfl⟩

/-- C7 (amended): a missing target list is reported and terminates the run
before any target is scanned, but with a NORMAL (zero) exit; an unreadable
list raises an uncaught error (non-zero outcome); and when every row's
periods parse, every other failure (fetch, compute, notification) is
absorbed and the run exits normally with the signals of the parsed
targets. -/
theorem C7_amended_theorem (fetch : Target → Except String (List Bar))
    (discord : Target → Except String Unit) (email : Except String Unit)
    (thr : ℚ) (rows : List RawRow)
    (hp : ∀ r ∈ rows, r.fastVal.isSome ∧ r.slowVal.isSome) :
    mainModel FileState.missing fetch discord email thr
        = RunOutcome.exitedZero [] ∧
      mainModel FileState.unreadable fetch discord email thr
        = RunOutcome.raised "read error" ∧
      mainModel (FileState.rows rows) fetch discord email thr
        = RunOutcome.exitedZero (runScan (parsedTargets rows) fetch discord thr) := by
  refine ⟨rfl, rfl, ?_⟩
  simp only [mainModel, scanRows_ok fetch discord thr rows hp]

/-- C7: witness for the amended theorem at a concrete row list whose
periods parse, under an always-failing fetch. -/
theorem C7_witness :
    (∀ r ∈ [{ ticker := "T1", fastVal := some 2, slowVal := some 4 },
            { ticker := "T2", fastVal := some 3, slowVal := some 6 }],
        (RawRow.fastVal r).isSome ∧ (RawRow.slowVal r).isSome) ∧
      (mainModel FileState.missing (fun _ => Except.error "net down")
          (fun _ => Except.ok ()) (Except.ok ()) 25 = RunOutcome.exitedZero [] ∧
        mainModel FileState.unreadable (fun _ => Except.error "net down")
          (fun _ => Except.ok ()) (Except.ok ()) 25
          = RunOutcome.raised "read error" ∧
        mainModel (FileState.rows
            [{ ticker := "T1", fastVal := some 2, slowVal := some 4 },
             { ticker := "T2", fastVal := some 3, slowVal := some 6 }])
          (fun _ => Except.error "net down") (fun _ => Except.ok ())
          (Except.ok ()) 25
          = RunOutcome.exitedZero (runScan (parsedTargets
              [{ ticker := "T1", fastVal := some 2, slowVal := some 4 },
               { ticker := "T2", fastVal := some 3, slowVal := some 6 }])
            (fun _ => Except.error "net down") (fun _ => Except.ok ()) 25)) :=
  ⟨by norm_num,
   C7_amended_theorem (fun _ => Except.error "net down") (fun _ => Except.ok ())
     (Except.ok ()) 25
     [{ ticker := "T1", fastVal := some 2, slowVal := some 4 },
      { ticker := "T2", fastVal := some 3, slowVal := some 6 }]
     (by norm_num)⟩

/-- C8: counterexample.  `requests.post` has no try/except of its own and
is called BEFORE `daily_signals.append`, so a webhook failure (caught by
the loop's generic handler) loses the current target's line: with identical
price data the collected results differ between a succeeding and a failing
webhook — a notification failure does alter the scan's collected
results/summary. -/
theorem C8_counterexample :
    runScan [{ ticker := "AAA", fast := 2, slow := 4 }]
        (fun _ => Except.ok sigBars) (fun _ => Except.ok ()) 25
        = [{ ticker := "AAA", fast := 2, slow := 4, adx := PVal.num 100 }] ∧
      runScan [{ ticker := "AAA", fast := 2, slow := 4 }]
        (fun _ => Except.ok sigBars) (fun _ => Except.error "http 404") 25
        = [] := by
  have hlen : sigBars.length = 9 := rfl
  constructor
  · simp only [runScan, List.filterMap_cons, processTarget, hlen]
    norm_num [sigBars_detect]
  · simp only [runScan, List.filterMap_cons, processTarget, hlen]
    norm_num [sigBars_detect]

/-- C8 (amended): an e-mail failure is swallowed inside `send_email_alert`
and never changes the run's outcome; a webhook failure for one target is
caught by the scan loop — it does not abort the scan, does not make the
run report failure, and leaves every other target's results unchanged —
but it drops the failing target's own line from the collected results. -/
theorem C8_amended_theorem (ts1 ts2 : List Target) (t : Target)
    (fetch : Target → Except String (List Bar))
    (discord : Target → Except String Unit) (thr : ℚ) (e : String)
    (hd : discord t = Except.error e) :
    runScan (ts1 ++ t :: ts2) fetch discord thr
        = runScan ts1 fetch discord thr ++ runScan ts2 fetch discord thr ∧
      (∀ (file : FileState) (e1 e2 : Except String Unit),
        mainModel file fetch discord e1 thr = mainModel file fetch discord e2 thr) ∧
      (∀ r1 r2 : Except String Unit, sendEmailModel r1 = sendEmailModel r2) := by
  refine ⟨?_, fun file e1 e2 => rfl, fun r1 r2 => rfl⟩
  apply runScan_split
  rw [hd]
  exact processTarget_discord_error (fetch t) t thr e

/-- C8: witness with one target whose webhook fails on a series that
produces a signal. -/
theorem C8_witness :
    (fun _ : Target => Except.error "http 404" : Target → Except String Unit)
        { ticker := "AAA", fast := 2, slow := 4 }
        = (Except.error "http 404" : Except String Unit) ∧
      (runScan ([] ++ { ticker := "AAA", fast := 2, slow := 4 } :: [])
          (fun _ => Except.ok sigBars) (fun _ => Except.error "http 404") 25
        = runScan [] (fun _ => Except.ok sigBars)
            (fun _ => Except.error "http 404") 25
          ++ runScan [] (fun _ => Except.ok sigBars)
            (fun _ => Except.error "http 404") 25 ∧
      (∀ (file : FileState) (e1 e2 : Except String Unit),
        mainModel file (fun _ => Except.ok sigBars)
            (fun _ => Except.error "http 404") e1 25
          = mainModel file (fun _ => Except.ok sigBars)
            (fun _ => Except.error "http 404") e2 25) ∧
      (∀ r1 r2 : Except String Unit, sendEmailModel r1 = sendEmailModel r2)) :=
  ⟨rfl, C8_amended_theorem [] [] { ticker := "AAA", fast := 2, slow := 4 }
    (fun _ => Except.ok sigBars) (fun _ => Except.error "http 404") 25
    "http 404" rfl⟩

/-- C9: on a series whose close price is the constant c, both EMA columns
are constantly c at every bar (seed included), for any fast and slow
periods, so the crossover condition today.fastEMA > today.slowEMA can never
hold and the detector returns no event at any threshold. -/
theorem C9_theorem (bars : List Bar) (c : ℚ) (f s : ℕ) (thr : ℚ)
    (hc : ∀ b ∈ bars, b.close = c) (h2 : 2 ≤ bars.length) :
    (calculate_indicators bars f s).fastEMA
        = List.replicate bars.length (PVal.num c) ∧
      (calculate_indicators bars f s).slowEMA
        = List.replicate bars.length (PVal.num c) ∧
      detect (rowsOf (calculate_indicators bars f s)) thr = none := by
  have hmapc : bars.map Bar.close = List.replicate bars.length c := by
    have hmem : ∀ x ∈ bars.map Bar.close, x = c := by
      intro x hx
      rcases List.mem_map.mp hx with ⟨b, hb, rfl⟩
      exact hc b hb
    have hrep := List.eq_replicate_of_mem hmem
    rwa [List.length_map] at hrep
  have hf : (calculate_indicators bars f s).fastEMA
      = List.replicate bars.length (PVal.num c) := by
    rw [calc_fastEMA, ewmMean_false_num, hmapc, recSmooth_const, List.map_replicate]
  have hsl : (calculate_indicators bars f s).slowEMA
      = List.replicate bars.length (PVal.num c) := by
    rw [calc_slowEMA, ewmMean_false_num, hmapc, recSmooth_const, List.map_replicate]
  refine ⟨hf, hsl, ?_⟩
  have hlen : (rowsOf (calculate_indicators bars f s)).length = bars.length :=
    length_rowsOf bars f s
  rw [detect_eq _ thr (by rw [hlen]; omega), hlen,
    rowsOf_getD bars f s (bars.length - 1) (by omega)]
  simp only [hf, hsl]
  have hget : (List.replicate bars.length (PVal.num c)).getD (bars.length - 1)
      PVal.nan = PVal.num c := by
    rw [List.getD_eq_getElem _ _ (by rw [List.length_replicate]; omega)]
    simp [List.getElem_replicate]
  rw [hget]
  simp [PVal.gtB]

/-- C9: witness on a two-bar constant-close series. -/
theorem C9_witness :
    ((∀ b ∈ [{ high := 5, low := 4, close := 9/2 },
        ({ high := 6, low := 4, close := 9/2 } : Bar)], Bar.close b = 9/2) ∧
      2 ≤ ([{ high := 5, low := 4, close := 9/2 },
        ({ high := 6, low := 4, close := 9/2 } : Bar)] : List Bar).length) ∧
      ((calculate_indicators [{ high := 5, low := 4, close := 9/2 },
            { high := 6, low := 4, close := 9/2 }] 2 4).fastEMA
          = List.replicate ([{ high := 5, low := 4, close := 9/2 },
              ({ high := 6, low := 4, close := 9/2 } : Bar)] : List Bar).length
              (PVal.num (9/2)) ∧
        (calculate_indicators [{ high := 5, low := 4, close := 9/2 },
            { high := 6, low := 4, close := 9/2 }] 2 4).slowEMA
          = List.replicate ([{ high := 5, low := 4, close := 9/2 },
              ({ high := 6, low := 4, close := 9/2 } : Bar)] : List Bar).length
              (PVal.num (9/2)) ∧
        detect (rowsOf (calculate_indicators [{ high := 5, low := 4, close := 9/2 },
            { high := 6, low := 4, close := 9/2 }] 2 4)) 25 = none) :=
  ⟨⟨by norm_num, by norm_num⟩,
   C9_theorem [{ high := 5, low := 4, close := 9/2 },
       { high := 6, low := 4, close := 9/2 }] (9/2) 2 4 25
     (by norm_num) (by norm_num)⟩

/-- C10: on every nonempty series the first true-range cell is
high[0] - low[0]: the two gap terms that involve the previous close are NaN
on the first row (through `shift(1)`) and the row-wise max skips NaN
instead of being poisoned by it, so the seed of the TR14 smoothing is
always a defined number. -/
theorem C10_theorem (b : Bar) (bs : List Bar) (f s : ℕ) :
    (calculate_indicators (b :: bs) f s).tr.head?
        = some (PVal.num (b.high - b.low)) ∧
      (calculate_indicators (b :: bs) f s).tr14.head?
        = some (PVal.num (b.high - b.low)) := by
  constructor
  · rw [calc_tr]
    simp [trCol, trCell_nan_prev]
  · rw [calc_tr14]
    simp [trCol, trCell_nan_prev, ewmMean]
